import Mathlib

/-!
# Shed Skin builtin runtime: index wrapping, sequence comparison, iteration, deep copy,
unpacking, `bytes` construction and the `sys` hooks

A shallow embedding of parts of `shedskin/lib/builtin.hpp` and `shedskin/lib/sys.cpp`,
and theorems about them.

Conventions of the embedding

* `__ss_int` is `int`, the default configuration (none of `__SS_INT32`,
  `__SS_INT64`, `__SS_INT128` defined), so `__ss_int` and the `int` locals and
  return types are one type.  The width of `int` is kept symbolic: the
  definitions take `M = INT_MAX + 1`, the number of non-negative `int` values, as
  their first argument (`2147483648` for a 32-bit `int`).  Values are `Int`s, and
  every arithmetic result that the C++ code stores in an `int` goes through
  `ssIntWrap M`.
* A C++ function that may throw returns `Except PyExc _`.  When the state
  changes made before a throw stay visible (iterators), the function returns
  the outcome together with the state after the call.
* A sequence (`pyseq<T>`) is its list of elements.
-/

namespace Shedskin

/-! ## Exceptions and machine integers -/

/-- The exception classes thrown by the embedded code. -/
inductive PyExc where
  | IndexError
  | StopIteration
  | ValueError (msg : String)
  | DictChanged
  | SystemExit (status : Int)
  deriving DecidableEq, Repr

/-- Reduction of a mathematical integer to the value an `__ss_int` holds in two's
complement, the representable values being `-M, ..., M - 1`. -/
def ssIntWrap (M : Nat) (x : Int) : Int := (x + (M : Int)) % (2 * (M : Int)) - (M : Int)

/-- The values representable in an `__ss_int`. -/
def IsSsInt (M : Nat) (x : Int) : Prop := -(M : Int) ≤ x ∧ x < (M : Int)

instance (M : Nat) (x : Int) : Decidable (IsSsInt M x) :=
  inferInstanceAs (Decidable (-(M : Int) ≤ x ∧ x < (M : Int)))

/-- `len(list<T> *x)`: `(__ss_int)x->units.size()`. -/
def len {α : Type} (M : Nat) (x : List α) : Int := ssIntWrap M (x.length : Int)

/-! ## `__wrap` -/

/-- `__wrap(a, i)` with `__SS_NOWRAP` and `__SS_NOBOUNDS` undefined (the default):
add the length once to a negative index, then check the bounds. -/
def __wrap {α : Type} (M : Nat) (a : List α) (i : Int) : Except PyExc Int :=
  let l := len M a
  let i1 := if i < 0 then ssIntWrap M (i + l) else i
  if i1 < 0 ∨ i1 ≥ l then
    Except.error PyExc.IndexError
  else
    Except.ok i1

/-! ## Sequences: element access, comparison, index-cursor iteration -/

/-- Modelled from the spec: `list<T>::__getitem__` (`builtin/list.hpp` is not among
the sources): "`get(index)` with wraparound (negative → `index+length`) then bounds
check (index error if still out of range)". -/
def __getitem__ {α : Type} (M : Nat) (s : List α) (i : Int) : Except PyExc α :=
  match __wrap M s i with
  | Except.error e => Except.error e
  | Except.ok j =>
    match s[j.toNat]? with
    | some x => Except.ok x
    | none => Except.error PyExc.IndexError

/-- Modelled from the spec: the integer instance of `__cmp` (`builtin/compare.hpp`
is not among the sources): a three-way comparison, "negative/zero/positive". -/
def __cmp (x y : Int) : Int :=
  if x < y then -1 else if x > y then 1 else 0

/-- Modelled from the spec: `___min(2, 0, x, y)` (its definition is not among the
sources): the smaller of its two values, "up to the shorter length". -/
def ___min (x y : Int) : Int :=
  if y < x then y else x

namespace pyseq

/-- The `for(i = 0; i < mnm; i++)` loop of `pyseq<T>::__cmp__` followed by the final
`return __cmp(this->__len__(), b->__len__())`.  The first argument is the number of
iterations still to run (`mnm - i`), the second is `i`.  `cmpE` is the element
instance of `__cmp`. -/
def cmpLoop {α : Type} (M : Nat) (cmpE : α → α → Int) (a b : List α) : Nat → Int → Except PyExc Int
  | 0, _ => Except.ok (__cmp (len M a) (len M b))
  | k + 1, i =>
    match __getitem__ M a i with
    | Except.error e => Except.error e
    | Except.ok x =>
      match __getitem__ M b i with
      | Except.error e => Except.error e
      | Except.ok y =>
        let cmp := cmpE x y
        if cmp ≠ 0 then Except.ok cmp else cmpLoop M cmpE a b k (ssIntWrap M (i + 1))

/-- `pyseq<T>::__cmp__(pyobj *p)`; `none` is the null pointer. -/
def __cmp__ {α : Type} (M : Nat) (cmpE : α → α → Int) (a : List α) (p : Option (List α)) :
    Except PyExc Int :=
  match p with
  | none => Except.ok 1
  | some b =>
    let mnm := ___min (len M a) (len M b)
    cmpLoop M cmpE a b mnm.toNat 0

/-- `pyseq<T>::for_in_init()`. -/
def for_in_init : Nat := 0

/-- `pyseq<T>::for_in_has_next(size_t i)`: `(__ss_int)i < __len__()`. -/
def for_in_has_next {α : Type} (M : Nat) (s : List α) (i : Nat) : Bool :=
  decide (ssIntWrap M (i : Int) < len M s)

/-- `pyseq<T>::for_in_next(size_t &i)`: the outcome of `__getitem__(pos)` and the
cursor after `i++` (a 64-bit `size_t`), which is incremented before the access. -/
def for_in_next {α : Type} (M : Nat) (s : List α) (i : Nat) : Except PyExc α × Nat :=
  let pos := ssIntWrap M (i : Int)
  (__getitem__ M s pos, (i + 1) % 18446744073709551616)

/-- The loop `while (s->for_in_has_next(c)) e = s->for_in_next(c);` started at cursor
`c`, with the elements produced so far in `acc`.  It returns the elements produced
and the final cursor, or the exception that left the loop; `none` when the fuel
ran out. -/
def for_in_loop {α : Type} (M : Nat) (s : List α) : Nat → Nat → List α →
    Option (Except PyExc (List α × Nat))
  | 0, _, _ => none
  | fuel + 1, c, acc =>
    if for_in_has_next M s c then
      match for_in_next M s c with
      | (Except.ok e, c1) => for_in_loop M s fuel c1 (acc ++ [e])
      | (Except.error ex, _) => some (Except.error ex)
    else
      some (Except.ok (acc, c))

end pyseq

/-! ## Generic iterators -/

/-- An object of a class deriving from `__iter<T>`: the fields `__result` and
`__stop_iteration` of `__iter<T>` together with the fields of the deriving class.
`none` is the value of a `__result` that has not been assigned. -/
structure __iter (σ α : Type) where
  fields : σ
  __result : Option α
  __stop_iteration : Bool

/-- A virtual method of an iterator object returning a `T`: the outcome of the
call and the object after it. -/
abbrev IterMethod (σ α : Type) := __iter σ α → Except PyExc α × __iter σ α

namespace __iter

/-- `__iter<T>::__iter__()`. -/
def __iter__ {σ α : Type} (it : __iter σ α) : __iter σ α :=
  { it with __stop_iteration := false }

/-- `__iter<T>::__get_next()`, with `next` the `__next__` of the dynamic class:
`try { __result = this->__next__(); } catch (StopIteration *) { __stop_iteration = true; }
return __result;`. -/
def __get_next {σ α : Type} (next : IterMethod σ α) (it : __iter σ α) :
    Except PyExc (Option α) × __iter σ α :=
  match next it with
  | (Except.ok v, it1) =>
    let it2 := { it1 with __result := some v }
    (Except.ok it2.__result, it2)
  | (Except.error PyExc.StopIteration, it1) =>
    let it2 := { it1 with __stop_iteration := true }
    (Except.ok it2.__result, it2)
  | (Except.error e, it1) => (Except.error e, it1)

end __iter

namespace pyiter

/-- `pyiter<T>::for_in_has_next(__iter<T> *iter)`:
`iter->__result = iter->__get_next(); return not iter->__stop_iteration;`. -/
def for_in_has_next {σ α : Type} (next : IterMethod σ α) (it : __iter σ α) :
    Except PyExc Bool × __iter σ α :=
  match __iter.__get_next next it with
  | (Except.ok r, it1) =>
    let it2 := { it1 with __result := r }
    (Except.ok (!it2.__stop_iteration), it2)
  | (Except.error e, it1) => (Except.error e, it1)

/-- `pyiter<T>::for_in_next(__iter<T> *iter)`: `return iter->__result;`. -/
def for_in_next {σ α : Type} (it : __iter σ α) : Option α :=
  it.__result

end pyiter

/-- The fields `counter` and `size` of `__seqiter<T>`.  Its field `p` points to the
sequence; the current elements of that sequence are an argument of `__next__`. -/
structure __seqiter where
  counter : Int
  size : Int

namespace __seqiter

/-- `__seqiter<T>::__seqiter(pyseq<T> *seq)`: `size = seq->__len__(); counter = 0;`.
The constructor assigns neither `__result` nor `__stop_iteration`; `flag0` is the
value the flag holds in the new object. -/
def init {α : Type} (M : Nat) (seq : List α) (flag0 : Bool) : __iter __seqiter α :=
  { fields := { counter := 0, size := len M seq }, __result := none,
    __stop_iteration := flag0 }

/-- `__seqiter<T>::__next__()`:
`if(counter==size) __throw_stop_iteration(); return p->__getitem__(counter++);`. -/
def __next__ {α : Type} (M : Nat) (seq : List α) : IterMethod __seqiter α :=
  fun it =>
    if it.fields.counter = it.fields.size then
      (Except.error PyExc.StopIteration, it)
    else
      (__getitem__ M seq it.fields.counter,
        { it with fields :=
            { it.fields with counter := ssIntWrap M (it.fields.counter + 1) } })

/-- The outcomes of `k` successive calls of `__next__`, and the iterator after them. -/
def nextCalls {α : Type} (M : Nat) (seq : List α) :
    Nat → __iter __seqiter α → List (Except PyExc α) × __iter __seqiter α
  | 0, it => ([], it)
  | k + 1, it =>
    let r := __next__ M seq it
    let rest := nextCalls M seq k r.2
    (r.1 :: rest.1, rest.2)

end __seqiter

/-- `pyseq<T>::__iter__()`: `return new __seqiter<T>(this);`. -/
def pyseq.__iter__ {α : Type} (M : Nat) (seq : List α) (flag0 : Bool) : __iter __seqiter α :=
  __seqiter.init M seq flag0

/-! ## Dictionaries -/

/-- The entries of a `dict<K,V>` in the internal order of its hash table (the order
from `gcd.begin()` to `gcd.end()`); the keys are pairwise distinct. -/
abbrev dict (K V : Type) := List (K × V)

namespace dict

/-- The keys in table order. -/
def keys {K V : Type} (d : dict K V) : List K := d.map Prod.fst

/-- Modelled from the spec: `dict<K,V>::get(K k, V v)` (`builtin/dict.hpp` is not
among the sources): "`get(key,default)` ... never raise"; the value stored under the
key, the default when the key is absent. -/
def get {K V : Type} [DecidableEq K] (d : dict K V) (k : K) (v : V) : V :=
  match d.find? (fun e => decide (e.1 = k)) with
  | some e => e.2
  | none => v

/-- Modelled from the spec: `dict<K,V>::__setitem__(K k, V v)` (`builtin/dict.hpp` is
not among the sources): "`set(key,value)` upserts". -/
def __setitem__ {K V : Type} [DecidableEq K] (d : dict K V) (k : K) (v : V) : dict K V :=
  if d.any (fun e => decide (e.1 = k)) then
    d.map (fun e => if e.1 = k then (k, v) else e)
  else
    d ++ [(k, v)]

/-- Modelled from the spec: `dict<K,V>::__delitem__(K k)` on a key that is present
(`builtin/dict.hpp` is not among the sources): the entry is erased from the table;
erasing from a `std::unordered_map` keeps the other entries, their order and the
iterators to them. -/
def __delitem__ {K V : Type} [DecidableEq K] (d : dict K V) (k : K) : dict K V :=
  d.filter (fun e => decide (e.1 ≠ k))

end dict

/-- `dict_looper<K,V>`: an iterator into the table.  `some k` points to the entry
with key `k`, `none` is `gcd.end()`. -/
structure dict_looper (K : Type) where
  it : Option K
  deriving DecidableEq, Repr

namespace dict

/-- The iterator following the entry with key `k`: the key of the next entry, or
`end()`; `none` when no entry has key `k` (the iterator is invalid). -/
def advance {K V : Type} [DecidableEq K] : dict K V → K → Option (Option K)
  | [], _ => none
  | e :: rest, k =>
    if e.1 = k then some (rest.head?.map Prod.fst) else advance rest k

/-- `dict<K,V>::for_in_init()`: `l.it = gcd.begin();`. -/
def for_in_init {K V : Type} (d : dict K V) : dict_looper K :=
  { it := d.head?.map Prod.fst }

/-- `dict<K,V>::for_in_has_next(dict_looper<K,V> &l)`: `return l.it != gcd.end();`. -/
def for_in_has_next {K V : Type} (_d : dict K V) (l : dict_looper K) : Except PyExc Bool :=
  Except.ok (l.it.isSome)

/-- `dict<K,V>::for_in_next(dict_looper<K,V> &l)`: `return (*(l.it++)).first;`.  The
result is the outcome and the cursor after the call; `none` when the behaviour is
undefined (the iterator is `end()` or points to no entry of the table). -/
def for_in_next {K V : Type} [DecidableEq K] (d : dict K V) (l : dict_looper K) :
    Option (Except PyExc K × dict_looper K) :=
  match l.it with
  | none => none
  | some k =>
    match advance d k with
    | none => none
    | some nxt => some (Except.ok k, { it := nxt })

end dict

/-! ## Deep copy -/

/-- The memo of a deep copy, `dict<void *, pyobj *>`: addresses are natural numbers
and `0` is the null pointer. -/
abbrev Memo := dict Nat Nat

/-- The part of the program state a deep copy acts on besides the memo. -/
structure World where
  /-- The receivers of the `__deepcopy__` calls made so far, latest first. -/
  calls : List Nat
  /-- The number of objects allocated so far; the next object gets address `alloc + 1`. -/
  alloc : Nat
  deriving DecidableEq, Repr

/-- A virtual `__deepcopy__(memo)`: receiver, memo and state before the call; the
returned pointer, memo and state after it, or `none` when the call does not return. -/
abbrev DeepcopyMethod := Nat → Memo → World → Option (Nat × Memo × World)

/-- `__deepcopy(T t, dict<void *, pyobj *> *memo=0)`, with `dc` the virtual
`__deepcopy__`; a null `memo` is `none`.  The result holds the returned pointer, the
content of the dict the local `memo` points to on return, and the state. -/
def __deepcopy (dc : DeepcopyMethod) (t : Nat) (memo : Option Memo) (w : World) :
    Option (Nat × Memo × World) :=
  if t = 0 then
    some (0, memo.getD [], w)
  else
    let memo1 : Memo := match memo with
      | some m => m
      | none => []
    let u := dict.get memo1 t 0
    if u ≠ 0 then
      some (u, memo1, w)
    else
      dc t memo1 { w with calls := t :: w.calls }

/-- Copy the children `cs` in order through `copy`, threading memo and state, and
collect the copies. -/
def deepcopyChildren (copy : Nat → Memo → World → Option (Nat × Memo × World)) :
    List Nat → Memo → World → Option (List Nat × Memo × World)
  | [], m, w => some ([], m, w)
  | c :: cs, m, w =>
    match copy c m w with
    | none => none
    | some (u, m1, w1) =>
      match deepcopyChildren copy cs m1 w1 with
      | none => none
      | some (us, m2, w2) => some (u :: us, m2, w2)

/-- Modelled from the spec: the `__deepcopy__` of the objects of a graph
(`builtin/list.hpp` and the other container files are not among the sources), an
object "records its new copy in the memo before deep-copying its children through
`__deepcopy`".  `children t` are the pointers held by the object at address `t`;
the first argument bounds the depth of the nested calls. -/
def objDeepcopy (children : Nat → List Nat) : Nat → DeepcopyMethod
  | 0 => fun _ _ _ => none
  | fuel + 1 => fun t memo w =>
    let c := w.alloc + 1
    let memo1 := dict.__setitem__ memo t c
    let w1 : World := { w with alloc := w.alloc + 1 }
    match deepcopyChildren
        (fun ch m w2 => __deepcopy (objDeepcopy children fuel) ch (some m) w2)
        (children t) memo1 w1 with
    | none => none
    | some (_, m2, w2) => some (c, m2, w2)

/-! ## Unpacking -/

/-- `__unpack_check(T t, int expected)`: compare `len(t)` with `(__ss_int)expected`. -/
def __unpack_check {α : Type} (M : Nat) (t : List α) (expected : Int) : Except PyExc Unit :=
  if len M t > expected then
    Except.error (PyExc.ValueError "too many values to unpack")
  else if len M t < expected then
    Except.error (PyExc.ValueError "not enough values to unpack")
  else
    Except.ok ()

/-! ## Loops over the generic triad -/

namespace pyiter

/-- `pyiter<T>::for_in_init()`: `return this->__iter__();`, with `iter` the virtual
`__iter__` of the dynamic class. -/
def for_in_init {τ ι : Type} (iter : τ → ι) (self : τ) : ι :=
  iter self

/-- The loop of `pyiter<T>::__contains__(T t)`,
`FOR_IN(e,this,1,2,3) if(__eq(e,t)) return __mbool(true); END_FOR return __mbool(false);`,
running on the iterator `it` that `for_in_init()` returned.  `eq` is the element
instance of `__eq`.  Modelled from the spec: the macros `FOR_IN` and `END_FOR` (their
definitions are not among the sources), "`hasNext(cursor)` reports whether a following
`next(cursor)` yields a value; `next(cursor)` advances and returns the element":
`while (for_in_has_next(it)) { e = for_in_next(it); ... }`.  The result is `none`
when the fuel ran out, or when a `__result` that was never assigned is read. -/
def containsLoop {σ α : Type} (eq : α → α → Bool) (next : IterMethod σ α) (t : α) :
    Nat → __iter σ α → Option (Except PyExc Bool × __iter σ α)
  | 0, _ => none
  | fuel + 1, it =>
    match for_in_has_next next it with
    | (Except.error ex, it1) => some (Except.error ex, it1)
    | (Except.ok false, it1) => some (Except.ok false, it1)
    | (Except.ok true, it1) =>
      match for_in_next it1 with
      | none => none
      | some e => if eq e t then some (Except.ok true, it1) else containsLoop eq next t fuel it1

/-- `pyiter<T>::__contains__(T t)`; `it` is the iterator `this->for_in_init()`
returned. -/
def __contains__ {σ α : Type} (eq : α → α → Bool) (next : IterMethod σ α) (it : __iter σ α)
    (t : α) (fuel : Nat) : Option (Except PyExc Bool × __iter σ α) :=
  containsLoop eq next t fuel it

end pyiter

namespace dict

/-- The loop `while (d->for_in_has_next(l)) k = d->for_in_next(l);` over a dict,
started at cursor `l` with the keys produced so far in `acc`.  It returns the keys
produced and the final cursor, or the exception that left the loop; `none` when the
fuel ran out or the behaviour is undefined. -/
def for_in_loop {K V : Type} [DecidableEq K] (d : dict K V) :
    Nat → dict_looper K → List K → Option (Except PyExc (List K × dict_looper K))
  | 0, _, _ => none
  | fuel + 1, l, acc =>
    match for_in_has_next d l with
    | Except.error ex => some (Except.error ex)
    | Except.ok false => some (Except.ok (acc, l))
    | Except.ok true =>
      match for_in_next d l with
      | none => none
      | some (Except.error ex, _) => some (Except.error ex)
      | some (Except.ok k, l1) => for_in_loop d fuel l1 (acc ++ [k])

end dict

/-! ## The `sys` module -/

/-- Modelled from the spec: `list<T>::append(T a)` (`builtin/list.hpp` is not among
the sources): "`append`" on a "resizable ordered sequence" adds the element at the
end. -/
def list.append {α : Type} (l : List α) (a : α) : List α :=
  l ++ [a]

namespace __sys__

/-- The globals of `sys.cpp` that `__init` assigns.  A `str` is its text, a `file`
is its `name`, and `version_info` is the element list of the tuple. -/
structure Globals where
  argv : List String
  version : String
  version_info : List Int
  hexversion : Int
  copyright : String
  platform : String
  maxint : Int
  __ss_stdin : String
  __ss_stdout : String
  __ss_stderr : String
  deriving DecidableEq, Repr

/-- The loop `for(int i=0; i<c; i++) argv->append(new str(v[i]));` of `__init`.  The
first argument is the number of iterations still to run (`c - i`), the second is
`i`; `v` holds the strings of the argument vector, and reading past its end is
undefined (`none`). -/
def argvLoop (M : Nat) (v : List String) : Nat → Int → List String → Option (List String)
  | 0, _, argv => some argv
  | k + 1, i, argv =>
    match v[i.toNat]? with
    | none => none
    | some s => argvLoop M v k (ssIntWrap M (i + 1)) (list.append argv s)

/-- `__sys__::__init(int c, char **v)`.  `gcc` is the text of the compiler macro
`__VERSION__`. -/
def __init (M : Nat) (gcc : String) (c : Int) (v : List String) : Option Globals :=
  match argvLoop M v c.toNat 0 [] with
  | none => none
  | some argv =>
    some
      { argv := argv
        version := ("Shed Skin Python-to-C++ Compiler 0.4\n[GCC " ++ gcc) ++ "]"
        version_info := [0, 4, 0, 0, 0]
        hexversion := 262144
        copyright := "Copyright (c) Mark Dufour 2005-2010.\nAll Rights Reserved."
        platform := "shedskin"
        maxint := (M : Int) - 1
        __ss_stdin := "<stdin>"
        __ss_stdout := "<stdout>"
        __ss_stderr := "<stderr>" }

/-- `__sys__::__ss_exit()`: `throw new SystemExit(0);`. -/
def __ss_exit : Except PyExc Unit :=
  Except.error (PyExc.SystemExit 0)

end __sys__

/-! ## `bytes` from an iterable -/

/-- The fields `unit` and `frozen` of `bytes`; `unit` is the list of its bytes read
as unsigned values.  The memoised `hash` is left out, no function here reads it. -/
structure bytes where
  unit : List Nat
  frozen : Int
  deriving DecidableEq, Repr

/-- Modelled from the spec: the constructor `bytes(int frozen=1)` (`builtin/bytes.cpp`
is not among the sources): an empty byte sequence, immutable unless `frozen` is `0`. -/
def bytes.init (frozen : Int) : bytes :=
  { unit := [], frozen := frozen }

/-- The conversion `(char)e` of an `__ss_int`, the byte read as an unsigned value. -/
def toChar (e : Int) : Nat :=
  (e % 256).toNat

/-- The `for_in` triad of a class `T` on a cursor type `ι`: `for_in_has_next` and
`for_in_next`, each with the cursor after the call; `for_in_next` is `none` where it
reads a value that was never assigned. -/
structure ForInTriad (ι α : Type) where
  has_next : ι → Except PyExc Bool × ι
  next : ι → Option (Except PyExc α × ι)

/-- The triad of `pyseq<T>` on a sequence with elements `s`. -/
def pyseq.triad {α : Type} (M : Nat) (s : List α) : ForInTriad Nat α :=
  { has_next := fun i => (Except.ok (pyseq.for_in_has_next M s i), i)
    next := fun i => some (pyseq.for_in_next M s i) }

/-- The triad of `pyiter<T>` on an iterator whose `__next__` is `next`. -/
def pyiter.triad {σ α : Type} (next : IterMethod σ α) : ForInTriad (__iter σ α) α :=
  { has_next := pyiter.for_in_has_next next
    next := fun it => (pyiter.for_in_next it).map (fun e => (Except.ok e, it)) }

/-- The loop `FOR_IN(e,t,1,2,3) b->unit += (char)e; END_FOR` of `__bytes` and
`__bytearray` on the triad `tr`, from cursor `c` with the bytes object `b`.  Modelled
from the spec: the macros `FOR_IN` and `END_FOR` (their definitions are not among the
sources), `while (for_in_has_next(c)) { e = for_in_next(c); ... }`. -/
def bytesLoop {ι : Type} (tr : ForInTriad ι Int) :
    Nat → ι → bytes → Option (Except PyExc bytes × ι)
  | 0, _, _ => none
  | fuel + 1, c, b =>
    match tr.has_next c with
    | (Except.error ex, c1) => some (Except.error ex, c1)
    | (Except.ok false, c1) => some (Except.ok b, c1)
    | (Except.ok true, c1) =>
      match tr.next c1 with
      | none => none
      | some (Except.error ex, c2) => some (Except.error ex, c2)
      | some (Except.ok e, c2) => bytesLoop tr fuel c2 { b with unit := b.unit ++ [toChar e] }

/-- `__bytes(T *t)` for a `T` deriving from `pyiter<__ss_int>`: the loop runs on the
triad of `T`, from the cursor `c` that `t->for_in_init()` returned. -/
def __bytes {ι : Type} (tr : ForInTriad ι Int) (c : ι) (fuel : Nat) :
    Option (Except PyExc bytes × ι) :=
  bytesLoop tr fuel c (bytes.init 1)

/-- `__bytearray(T *t)` for a `T` deriving from `pyiter<__ss_int>`: `t` is converted
to `pyiter<__ss_int> *`, so the loop runs on the triad of `pyiter`, from the iterator
`it` that `t->__iter__()` returned, with `next` its `__next__`. -/
def __bytearray {σ : Type} (next : IterMethod σ Int) (it : __iter σ Int) (fuel : Nat) :
    Option (Except PyExc bytes × __iter σ Int) :=
  bytesLoop (pyiter.triad next) fuel it { bytes.init 1 with frozen := 0 }

/-! ## The inherited `__next__`, iteration over a growing sequence, logged comparison -/

/-- `__iter<T>::__next__()`, inherited by a class that overrides `__get_next`
("`__get_next` can be overloaded instead to avoid (slow) exception handling"), with
`getNext` the `__get_next` of the dynamic class:
`__result = this->__get_next(); if(__stop_iteration) throw new StopIteration();
return __result;`. -/
def __iter.__next__ {σ α : Type} (getNext : IterMethod σ α) : IterMethod σ α :=
  fun it =>
    match getNext it with
    | (Except.ok v, it1) =>
      let it2 := { it1 with __result := some v }
      if it2.__stop_iteration then (Except.error PyExc.StopIteration, it2)
      else (Except.ok v, it2)
    | (Except.error e, it1) => (Except.error e, it1)

/-- The outcomes of successive calls of `__seqiter<T>::__next__`, one call for each
entry of the list: the entry holds the elements of the sequence `p` points to at the
time of that call. -/
def __seqiter.nextCallsOn {α : Type} (M : Nat) :
    List (List α) → __iter __seqiter α → List (Except PyExc α) × __iter __seqiter α
  | [], it => ([], it)
  | seq :: seqs, it =>
    let r := __seqiter.__next__ M seq it
    let rest := __seqiter.nextCallsOn M seqs r.2
    (r.1 :: rest.1, rest.2)

/-- A record of what a run of `pyseq<T>::__cmp__` did: the indices it passed to
`__getitem__`, in order, and the number of element comparisons `__cmp(x, y)` it made. -/
structure CmpLog where
  reads : List Int
  comparisons : Nat
  deriving DecidableEq, Repr

namespace pyseq

/-- The loop of `pyseq<T>::__cmp__` as in `cmpLoop`, which also keeps the record of
the `__getitem__` calls and element comparisons made. -/
def cmpLoopLog {α : Type} (M : Nat) (cmpE : α → α → Int) (a b : List α) :
    Nat → Int → CmpLog → Except PyExc Int × CmpLog
  | 0, _, log => (Except.ok (__cmp (len M a) (len M b)), log)
  | k + 1, i, log =>
    let log1 : CmpLog := { log with reads := log.reads ++ [i] }
    match __getitem__ M a i with
    | Except.error e => (Except.error e, log1)
    | Except.ok x =>
      let log2 : CmpLog := { log1 with reads := log1.reads ++ [i] }
      match __getitem__ M b i with
      | Except.error e => (Except.error e, log2)
      | Except.ok y =>
        let cmp := cmpE x y
        let log3 : CmpLog := { log2 with comparisons := log2.comparisons + 1 }
        if cmp ≠ 0 then (Except.ok cmp, log3)
        else cmpLoopLog M cmpE a b k (ssIntWrap M (i + 1)) log3

/-- `pyseq<T>::__cmp__(pyobj *p)` as in `__cmp__`, with the record of its
`__getitem__` calls and element comparisons. -/
def cmpLog {α : Type} (M : Nat) (cmpE : α → α → Int) (a : List α) (p : Option (List α)) :
    Except PyExc Int × CmpLog :=
  match p with
  | none => (Except.ok 1, { reads := [], comparisons := 0 })
  | some b =>
    let mnm := ___min (len M a) (len M b)
    cmpLoopLog M cmpE a b mnm.toNat 0 { reads := [], comparisons := 0 }

end pyseq

/-! ## Specification-side functions -/

/-- The comparison of the first pair of corresponding elements that does not compare
`0`, or `d` when one of the lists ends before such a pair. -/
def firstDiff {α : Type} (cmpE : α → α → Int) (d : Int) : List α → List α → Int
  | x :: xs, y :: ys => if cmpE x y ≠ 0 then cmpE x y else firstDiff cmpE d xs ys
  | [], _ => d
  | _ :: _, [] => d

/-- Every copy recorded in the memo is a non-null pointer. -/
def MemoInv (m : Memo) : Prop := ∀ e ∈ m, e.2 ≠ 0

/-- The objects of `V` that have no entry in the memo. -/
def unvisited (V : Finset Nat) (m : Memo) : Finset Nat :=
  V.filter (fun x => x ∉ dict.keys m)

/-- What a deep copy that started with memo `m` and state `w` and ended with `m1` and
`w1` has done: the memo kept its keys and holds non-null copies, and the
`__deepcopy__` calls made are on pairwise distinct objects of `V` that had no entry
in `m` and have one in `m1`. -/
def CopyPost (V : Finset Nat) (m : Memo) (w : World) (m1 : Memo) (w1 : World) : Prop :=
  MemoInv m1 ∧ (∀ x ∈ dict.keys m, x ∈ dict.keys m1) ∧
    ∃ new : List Nat, w1.calls = new ++ w.calls ∧ new.Nodup ∧
      ∀ x ∈ new, x ∈ V ∧ x ∉ dict.keys m ∧ x ∈ dict.keys m1

/-- The first `k` rounds of the loop over the generic triad: `some (xs, it1)` when
each of the first `k` calls of `for_in_has_next` returned true, `xs` being the
elements `for_in_next` returned and `it1` the iterator after them. -/
def pyiter.rounds {σ α : Type} (next : IterMethod σ α) :
    Nat → __iter σ α → Option (List α × __iter σ α)
  | 0, it => some ([], it)
  | k + 1, it =>
    match pyiter.for_in_has_next next it with
    | (Except.ok true, it1) =>
      match pyiter.for_in_next it1 with
      | none => none
      | some e =>
        match pyiter.rounds next k it1 with
        | none => none
        | some (xs, it2) => some (e :: xs, it2)
    | _ => none

/-- The elements a loop over the triad `tr` produces from cursor `c`, after those in
`acc`, with the final cursor; `none` when the fuel ran out. -/
def forInCollect {ι α : Type} (tr : ForInTriad ι α) :
    Nat → ι → List α → Option (Except PyExc (List α) × ι)
  | 0, _, _ => none
  | fuel + 1, c, acc =>
    match tr.has_next c with
    | (Except.error ex, c1) => some (Except.error ex, c1)
    | (Except.ok false, c1) => some (Except.ok acc, c1)
    | (Except.ok true, c1) =>
      match tr.next c1 with
      | none => none
      | some (Except.error ex, c2) => some (Except.error ex, c2)
      | some (Except.ok e, c2) => forInCollect tr fuel c2 (acc ++ [e])

/-- The invariant of a `__seqiter`: `0 <= counter <= size`, and `size` is an
`__ss_int`. -/
def SeqIterInv {α : Type} (M : Nat) (it : __iter __seqiter α) : Prop :=
  0 ≤ it.fields.counter ∧ it.fields.counter ≤ it.fields.size ∧ it.fields.size < (M : Int)

/-! ## Helper lemmas on machine integers -/

theorem ssIntWrap_of_isSsInt {M : Nat} {x : Int} (h : IsSsInt M x) : ssIntWrap M x = x := by
  obtain ⟨h1, h2⟩ := h
  have h3 : (x + (M : Int)) % (2 * (M : Int)) = x + (M : Int) :=
    Int.emod_eq_of_lt (by omega) (by omega)
  rw [ssIntWrap, h3]
  omega

theorem len_eq_length {α : Type} {M : Nat} (a : List α) (h : a.length < M) :
    len M a = (a.length : Int) := by
  rw [len]
  apply ssIntWrap_of_isSsInt
  constructor <;> omega

theorem wrap_unfold {α : Type} {M : Nat} (a : List α) (i : Int)
    (hl : a.length < M) (hi : IsSsInt M i) :
    __wrap M a i =
      if i < -(a.length : Int) ∨ i ≥ (a.length : Int) then Except.error PyExc.IndexError
      else Except.ok (if i < 0 then i + (a.length : Int) else i) := by
  obtain ⟨hi1, hi2⟩ := hi
  simp only [__wrap, len_eq_length a hl]
  by_cases h0 : i < 0
  · have hw : ssIntWrap M (i + (a.length : Int)) = i + (a.length : Int) := by
      apply ssIntWrap_of_isSsInt
      constructor <;> omega
    simp only [h0, if_true, hw]
    by_cases h1 : i < -(a.length : Int)
    · have h2 : i + (a.length : Int) < 0 := by omega
      simp only [h1, h2, true_or, if_true]
    · have h2 : ¬ (i + (a.length : Int) < 0) := by omega
      have h3 : ¬ (i + (a.length : Int) ≥ (a.length : Int)) := by omega
      have h4 : ¬ (i ≥ (a.length : Int)) := by omega
      simp only [h1, h2, h3, h4, or_self, if_false]
  · have h1 : ¬ (i < -(a.length : Int)) := by omega
    simp only [h0, if_false, h1, false_or]

theorem getitem_nat {α : Type} {M : Nat} (s : List α) (i : Nat)
    (hl : s.length < M) (hi : i < s.length) :
    __getitem__ M s (i : Int) = Except.ok (s.get ⟨i, hi⟩) := by
  have hr : IsSsInt M (i : Int) := by constructor <;> omega
  have h1 : ¬ ((i : Int) < -(s.length : Int) ∨ (i : Int) ≥ (s.length : Int)) := by omega
  have h2 : ¬ ((i : Int) < 0) := by omega
  rw [__getitem__, wrap_unfold s (i : Int) hl hr]
  simp only [h1, if_false, h2, Int.toNat_ofNat, List.getElem?_eq_getElem hi, List.get_eq_getElem]

/-! ## Claims on `__wrap` -/

/-- C1: with wrap and bounds checks enabled, `__wrap(a, i)` raises the
index-out-of-range error exactly when `i < -l` or `i >= l`, where `l = len(a)`;
the length is added at most once, so `i < -l` raises even if `i + 2*l` is in range. -/
theorem wrap_raises_iff {α : Type} (M : Nat) (a : List α) (i : Int)
    (hl : a.length < M) (hi : IsSsInt M i) :
    (__wrap M a i = Except.error PyExc.IndexError ↔
        (i < -(a.length : Int) ∨ i ≥ (a.length : Int))) ∧
    (i < -(a.length : Int) → 0 ≤ i + 2 * (a.length : Int) →
        i + 2 * (a.length : Int) < (a.length : Int) →
        __wrap M a i = Except.error PyExc.IndexError) := by
  rw [wrap_unfold a i hl hi]
  constructor
  · by_cases h : i < -(a.length : Int) ∨ i ≥ (a.length : Int)
    · simp only [h, if_true]
    · simp only [h, if_false, iff_false]
      intro hc
      cases hc
  · intro h _ _
    simp only [h, true_or, if_true]

theorem wrap_raises_iff_witness :
    (__wrap 2147483648 [10, 20, 30] (-5 : Int) = Except.error PyExc.IndexError ↔
        ((-5 : Int) < -(([10, 20, 30] : List Nat).length : Int) ∨
          (-5 : Int) ≥ (([10, 20, 30] : List Nat).length : Int))) ∧
    ((-5 : Int) < -(([10, 20, 30] : List Nat).length : Int) →
        0 ≤ (-5 : Int) + 2 * (([10, 20, 30] : List Nat).length : Int) →
        (-5 : Int) + 2 * (([10, 20, 30] : List Nat).length : Int)
          < (([10, 20, 30] : List Nat).length : Int) →
        __wrap 2147483648 [10, 20, 30] (-5 : Int) = Except.error PyExc.IndexError) :=
  wrap_raises_iff 2147483648 ([10, 20, 30] : List Nat) (-5) (by decide) (by decide)

/-- C2: for `-l <= i < l`, `__wrap(a, i)` returns `i` when `i >= 0` and `i + l`
when `i < 0`; hence `__wrap(a, i) == __wrap(a, i + l)` for `-l <= i < 0`, and the
returned index lies in `[0, l)`. -/
theorem wrap_in_range {α : Type} (M : Nat) (a : List α) (i : Int)
    (hl : a.length < M)
    (hlo : -(a.length : Int) ≤ i) (hhi : i < (a.length : Int)) :
    __wrap M a i = Except.ok (if i < 0 then i + (a.length : Int) else i) ∧
    (i < 0 → __wrap M a i = __wrap M a (i + (a.length : Int))) ∧
    (∀ j, __wrap M a i = Except.ok j → 0 ≤ j ∧ j < (a.length : Int)) := by
  have hi : IsSsInt M i := by constructor <;> omega
  have hmain : __wrap M a i = Except.ok (if i < 0 then i + (a.length : Int) else i) := by
    rw [wrap_unfold a i hl hi]
    have : ¬ (i < -(a.length : Int) ∨ i ≥ (a.length : Int)) := by omega
    simp only [this, if_false]
  refine ⟨hmain, ?_, ?_⟩
  · intro hneg
    have hi2 : IsSsInt M (i + (a.length : Int)) := by constructor <;> omega
    rw [hmain, wrap_unfold a (i + (a.length : Int)) hl hi2]
    have h1 : ¬ (i + (a.length : Int) < -(a.length : Int) ∨
        i + (a.length : Int) ≥ (a.length : Int)) := by omega
    have h2 : ¬ (i + (a.length : Int) < 0) := by omega
    simp only [h1, if_false, hneg, if_true, h2]
  · intro j hj
    rw [hmain] at hj
    injection hj with hj
    subst hj
    split <;> omega

theorem wrap_in_range_witness :
    __wrap 2147483648 ([10, 20, 30] : List Nat) (-2 : Int) =
      Except.ok (if (-2 : Int) < 0 then (-2 : Int) + (([10, 20, 30] : List Nat).length : Int)
        else (-2 : Int)) ∧
    ((-2 : Int) < 0 → __wrap 2147483648 ([10, 20, 30] : List Nat) (-2 : Int) =
      __wrap 2147483648 ([10, 20, 30] : List Nat)
        ((-2 : Int) + (([10, 20, 30] : List Nat).length : Int))) ∧
    (∀ j, __wrap 2147483648 ([10, 20, 30] : List Nat) (-2 : Int) = Except.ok j →
      0 ≤ j ∧ j < (([10, 20, 30] : List Nat).length : Int)) :=
  wrap_in_range 2147483648 ([10, 20, 30] : List Nat) (-2) (by decide) (by decide) (by decide)

/-! ## Sequence comparison -/

theorem firstDiff_first {α : Type} (cmpE : α → α → Int) (d : Int) :
    ∀ (xs ys : List α) (i : Nat) (x y : α), xs[i]? = some x → ys[i]? = some y →
      (∀ (j : Nat) (u v : α), j < i → xs[j]? = some u → ys[j]? = some v → cmpE u v = 0) →
      cmpE x y ≠ 0 → firstDiff cmpE d xs ys = cmpE x y := by
  intro xs
  induction xs with
  | nil => intro ys i x y hx; simp at hx
  | cons x0 xs ih =>
    intro ys i x y hx hy hz hne
    cases ys with
    | nil => simp at hy
    | cons y0 ys =>
      cases i with
      | zero =>
        simp only [List.getElem?_cons_zero, Option.some.injEq] at hx hy
        subst hx; subst hy
        simp only [firstDiff, hne, ne_eq, not_false_eq_true, if_true]
      | succ i =>
        simp only [List.getElem?_cons_succ] at hx hy
        have h0 : cmpE x0 y0 = 0 :=
          hz 0 x0 y0 (Nat.succ_pos i) (by simp) (by simp)
        simp only [firstDiff, h0, ne_eq, not_true_eq_false, if_false]
        apply ih ys i x y hx hy _ hne
        intro j u v hj hu hv
        exact hz (j + 1) u v (by omega) (by simpa using hu) (by simpa using hv)

theorem firstDiff_eq_zero_iff {α : Type} (cmpE : α → α → Int) (d : Int) :
    ∀ (xs ys : List α), firstDiff cmpE d xs ys = 0 ↔
      (d = 0 ∧ ∀ (j : Nat) (u v : α), xs[j]? = some u → ys[j]? = some v → cmpE u v = 0) := by
  intro xs
  induction xs with
  | nil => intro ys; simp [firstDiff]
  | cons x0 xs ih =>
    intro ys
    cases ys with
    | nil => simp [firstDiff]
    | cons y0 ys =>
      by_cases h0 : cmpE x0 y0 = 0
      · simp only [firstDiff, h0, ne_eq, not_true_eq_false, if_false, ih ys]
        constructor
        · rintro ⟨hd, hall⟩
          refine ⟨hd, ?_⟩
          intro j u v hu hv
          cases j with
          | zero =>
            simp only [List.getElem?_cons_zero, Option.some.injEq] at hu hv
            subst hu; subst hv; exact h0
          | succ j =>
            simp only [List.getElem?_cons_succ] at hu hv
            exact hall j u v hu hv
        · rintro ⟨hd, hall⟩
          refine ⟨hd, ?_⟩
          intro j u v hu hv
          exact hall (j + 1) u v (by simpa using hu) (by simpa using hv)
      · simp only [firstDiff, h0, ne_eq, not_false_eq_true, if_true, false_iff, not_and]
        intro _ hall
        exact h0 (hall 0 x0 y0 (by simp) (by simp))

theorem firstDiff_all_zero {α : Type} (cmpE : α → α → Int) (d : Int) :
    ∀ (xs ys : List α),
      (∀ (j : Nat) (u v : α), xs[j]? = some u → ys[j]? = some v → cmpE u v = 0) →
      firstDiff cmpE d xs ys = d := by
  intro xs
  induction xs with
  | nil => intro ys _; simp [firstDiff]
  | cons x0 xs ih =>
    intro ys hall
    cases ys with
    | nil => simp [firstDiff]
    | cons y0 ys =>
      have h0 : cmpE x0 y0 = 0 := hall 0 x0 y0 (by simp) (by simp)
      simp only [firstDiff, h0, ne_eq, not_true_eq_false, if_false]
      apply ih ys
      intro j u v hu hv
      exact hall (j + 1) u v (by simpa using hu) (by simpa using hv)

theorem cmpLoop_eq_firstDiff {α : Type} {M : Nat} (cmpE : α → α → Int) (a b : List α)
    (ha : a.length < M) (hb : b.length < M) :
    ∀ (k i : Nat), i + k = min a.length b.length →
      pyseq.cmpLoop M cmpE a b k (i : Int) =
        Except.ok (firstDiff cmpE (__cmp (len M a) (len M b)) (a.drop i) (b.drop i)) := by
  intro k
  induction k with
  | zero =>
    intro i hi
    have hd : a.drop i = [] ∨ b.drop i = [] := by
      rcases Nat.le_total a.length b.length with h | h
      · left; apply List.drop_eq_nil_of_le; omega
      · right; apply List.drop_eq_nil_of_le; omega
    rw [pyseq.cmpLoop]
    rcases hd with h | h
    · rw [h, firstDiff]
    · rw [h]
      cases a.drop i <;> rw [firstDiff]
  | succ k ih =>
    intro i hi
    have hia : i < a.length := by omega
    have hib : i < b.length := by omega
    have hw : ssIntWrap M ((i : Int) + 1) = ((i + 1 : Nat) : Int) := by
      rw [ssIntWrap_of_isSsInt]
      · push_cast; rfl
      · constructor <;> omega
    rw [pyseq.cmpLoop, getitem_nat a i ha hia, getitem_nat b i hb hib]
    simp only [hw]
    rw [ih (i + 1) (by omega), List.drop_eq_getElem_cons hia, List.drop_eq_getElem_cons hib,
      firstDiff]
    simp only [List.get_eq_getElem]
    split <;> rfl

theorem pyseq_cmp_eq_firstDiff {α : Type} {M : Nat} (cmpE : α → α → Int) (a b : List α)
    (ha : a.length < M) (hb : b.length < M) :
    pyseq.__cmp__ M cmpE a (some b) =
      Except.ok (firstDiff cmpE (__cmp (a.length : Int) (b.length : Int)) a b) := by
  have hmin : (___min (len M a) (len M b)).toNat = min a.length b.length := by
    rw [len_eq_length a ha, len_eq_length b hb, ___min]
    split <;> omega
  have h := cmpLoop_eq_firstDiff cmpE a b ha hb (min a.length b.length) 0 (by omega)
  rw [len_eq_length a ha, len_eq_length b hb] at h
  rw [pyseq.__cmp__]
  simp only [hmin]
  exact h


/-- C3: for non-null sequences `a` and `b`, `a.__cmp__(b)` is the element comparison
at the smallest index below both lengths where that comparison is non-zero, and the
comparison of the lengths when there is no such index; so a sequence whose elements
all compare `0` with those of a longer one compares less, and the result is `0`
exactly when the lengths are equal and every element pair compares `0`. -/
theorem pyseq_cmp_lexicographic {α : Type} (M : Nat) (cmpE : α → α → Int) (a b : List α)
    (ha : a.length < M) (hb : b.length < M) :
    (∀ (i : Nat) (x y : α), a[i]? = some x → b[i]? = some y →
      (∀ (j : Nat) (u v : α), j < i → a[j]? = some u → b[j]? = some v → cmpE u v = 0) →
      cmpE x y ≠ 0 → pyseq.__cmp__ M cmpE a (some b) = Except.ok (cmpE x y)) ∧
    ((∀ (j : Nat) (u v : α), a[j]? = some u → b[j]? = some v → cmpE u v = 0) →
      pyseq.__cmp__ M cmpE a (some b) = Except.ok (__cmp (len M a) (len M b)) ∧
      (a.length < b.length → pyseq.__cmp__ M cmpE a (some b) = Except.ok (-1))) ∧
    (pyseq.__cmp__ M cmpE a (some b) = Except.ok 0 ↔
      (a.length = b.length ∧
        ∀ (j : Nat) (u v : α), a[j]? = some u → b[j]? = some v → cmpE u v = 0)) := by
  rw [pyseq_cmp_eq_firstDiff cmpE a b ha hb, len_eq_length a ha, len_eq_length b hb]
  refine ⟨?_, ?_, ?_⟩
  · intro i x y hx hy hz hne
    rw [firstDiff_first cmpE _ a b i x y hx hy hz hne]
  · intro hall
    rw [firstDiff_all_zero cmpE _ a b hall]
    refine ⟨rfl, ?_⟩
    intro hlt
    have : (a.length : Int) < (b.length : Int) := by omega
    simp only [__cmp, this, if_true]
  · have hc : __cmp (a.length : Int) (b.length : Int) = 0 ↔ a.length = b.length := by
      rw [__cmp]
      split
      · constructor
        · intro h; omega
        · intro h; omega
      · split
        · constructor
          · intro h; omega
          · intro h; omega
        · constructor
          · intro _; omega
          · intro _; rfl
    constructor
    · intro h
      injection h with h
      rw [firstDiff_eq_zero_iff] at h
      exact ⟨hc.mp h.1, h.2⟩
    · rintro ⟨hlen, hall⟩
      have : firstDiff cmpE (__cmp (a.length : Int) (b.length : Int)) a b = 0 :=
        (firstDiff_eq_zero_iff cmpE _ a b).mpr ⟨hc.mpr hlen, hall⟩
      rw [this]

theorem pyseq_cmp_lexicographic_witness :
    (∀ (i : Nat) (x y : Int), ([1, 2, 3] : List Int)[i]? = some x →
      ([1, 5] : List Int)[i]? = some y →
      (∀ (j : Nat) (u v : Int), j < i → ([1, 2, 3] : List Int)[j]? = some u →
        ([1, 5] : List Int)[j]? = some v → __cmp u v = 0) →
      __cmp x y ≠ 0 →
      pyseq.__cmp__ 2147483648 __cmp [1, 2, 3] (some [1, 5]) = Except.ok (__cmp x y)) ∧
    ((∀ (j : Nat) (u v : Int), ([1, 2, 3] : List Int)[j]? = some u →
        ([1, 5] : List Int)[j]? = some v → __cmp u v = 0) →
      pyseq.__cmp__ 2147483648 __cmp [1, 2, 3] (some [1, 5]) =
        Except.ok (__cmp (len 2147483648 ([1, 2, 3] : List Int))
          (len 2147483648 ([1, 5] : List Int))) ∧
      (([1, 2, 3] : List Int).length < ([1, 5] : List Int).length →
        pyseq.__cmp__ 2147483648 __cmp [1, 2, 3] (some [1, 5]) = Except.ok (-1))) ∧
    (pyseq.__cmp__ 2147483648 __cmp [1, 2, 3] (some [1, 5]) = Except.ok 0 ↔
      (([1, 2, 3] : List Int).length = ([1, 5] : List Int).length ∧
        ∀ (j : Nat) (u v : Int), ([1, 2, 3] : List Int)[j]? = some u →
          ([1, 5] : List Int)[j]? = some v → __cmp u v = 0)) :=
  pyseq_cmp_lexicographic 2147483648 __cmp ([1, 2, 3] : List Int) [1, 5]
    (by decide) (by decide)

/-! ## Index-cursor iteration over a sequence -/

theorem pyseq_has_next_iff {α : Type} {M : Nat} (s : List α) (i : Nat)
    (hl : s.length < M) (hi : i < M) :
    pyseq.for_in_has_next M s i = true ↔ i < s.length := by
  have hw : ssIntWrap M (i : Int) = (i : Int) := by
    apply ssIntWrap_of_isSsInt
    constructor <;> omega
  rw [pyseq.for_in_has_next, hw, len_eq_length s hl, decide_eq_true_iff]
  omega

theorem pyseq_next_eq {α : Type} {M : Nat} (s : List α) (i : Nat)
    (hl : s.length < M) (h64 : s.length < 18446744073709551616) (hi : i < s.length) :
    pyseq.for_in_next M s i = (Except.ok (s.get ⟨i, hi⟩), i + 1) := by
  have hw : ssIntWrap M (i : Int) = (i : Int) := by
    apply ssIntWrap_of_isSsInt
    constructor <;> omega
  have hm : (i + 1) % 18446744073709551616 = i + 1 := by omega
  rw [pyseq.for_in_next]
  simp only [hw, hm, getitem_nat s i hl hi]

theorem pyseq_loop_from {α : Type} {M : Nat} (s : List α)
    (hl : s.length < M) (h64 : s.length < 18446744073709551616) :
    ∀ (fuel c : Nat) (acc : List α), c ≤ s.length → s.length - c < fuel →
      pyseq.for_in_loop M s fuel c acc = some (Except.ok (acc ++ s.drop c, s.length)) := by
  intro fuel
  induction fuel with
  | zero => intro c acc _ h; omega
  | succ fuel ih =>
    intro c acc hc hf
    by_cases hlt : c < s.length
    · have h1 : pyseq.for_in_has_next M s c = true :=
        (pyseq_has_next_iff s c hl (by omega)).mpr hlt
      rw [pyseq.for_in_loop, h1, pyseq_next_eq s c hl h64 hlt]
      simp only [if_true]
      rw [ih (c + 1) _ (by omega) (by omega), List.drop_eq_getElem_cons hlt]
      simp only [List.get_eq_getElem, List.append_assoc, List.singleton_append]
    · have h1 : pyseq.for_in_has_next M s c = false := by
        rw [Bool.eq_false_iff]
        intro h
        exact hlt ((pyseq_has_next_iff s c hl (by omega)).mp h)
      have hc2 : c = s.length := by omega
      rw [pyseq.for_in_loop, h1]
      simp only [Bool.false_eq_true, if_false]
      rw [hc2, List.drop_length, List.append_nil]

/-- C4: on a sequence `s` of length `n` that is not modified, the loop driving the
triad from `for_in_init()` produces exactly `s[0], ..., s[n-1]` in order and stops
with the cursor at `n`; `for_in_has_next(i)` is true iff `i < n`, and
`for_in_next(i)` for `i < n` returns `s[i]` without error and moves the cursor to
`i + 1`. -/
theorem pyseq_for_in_yields_all {α : Type} (M : Nat) (s : List α)
    (hl : s.length < M) (h64 : s.length < 18446744073709551616) :
    pyseq.for_in_init = 0 ∧
    (∀ (fuel : Nat), s.length < fuel →
      pyseq.for_in_loop M s fuel pyseq.for_in_init [] = some (Except.ok (s, s.length))) ∧
    (∀ (i : Nat), i < M → (pyseq.for_in_has_next M s i = true ↔ i < s.length)) ∧
    (∀ (i : Nat) (x : α), s[i]? = some x →
      pyseq.for_in_next M s i = (Except.ok x, i + 1)) := by
  refine ⟨rfl, ?_, ?_, ?_⟩
  · intro fuel hf
    have h := pyseq_loop_from s hl h64 fuel 0 [] (Nat.zero_le _) (by omega)
    simpa [pyseq.for_in_init] using h
  · intro i hi
    exact pyseq_has_next_iff s i hl hi
  · intro i x hx
    obtain ⟨hi, hx2⟩ := List.getElem?_eq_some_iff.mp hx
    rw [pyseq_next_eq s i hl h64 hi, List.get_eq_getElem, hx2]

theorem pyseq_for_in_yields_all_witness :
    pyseq.for_in_init = 0 ∧
    (∀ (fuel : Nat), ([7, 8, 9] : List Nat).length < fuel →
      pyseq.for_in_loop 2147483648 [7, 8, 9] fuel pyseq.for_in_init [] =
        some (Except.ok ([7, 8, 9], ([7, 8, 9] : List Nat).length))) ∧
    (∀ (i : Nat), i < 2147483648 →
      (pyseq.for_in_has_next 2147483648 ([7, 8, 9] : List Nat) i = true ↔
        i < ([7, 8, 9] : List Nat).length)) ∧
    (∀ (i : Nat) (x : Nat), ([7, 8, 9] : List Nat)[i]? = some x →
      pyseq.for_in_next 2147483648 [7, 8, 9] i = (Except.ok x, i + 1)) :=
  pyseq_for_in_yields_all 2147483648 ([7, 8, 9] : List Nat) (by decide) (by decide)

/-! ## Generic iterators and the sequence iterator -/

theorem ssIntWrap_zero (M : Nat) : ssIntWrap M 0 = 0 := by
  rcases Nat.eq_zero_or_pos M with h | h
  · subst h
    simp [ssIntWrap]
  · apply ssIntWrap_of_isSsInt
    constructor <;> omega

theorem len_nil {α : Type} (M : Nat) : len M ([] : List α) = 0 := by
  rw [len]
  exact ssIntWrap_zero M

/-- C5: on a sequence of length `0` the first has-next check reports exhaustion and
no exception reaches the caller, on both paths: the index-cursor check is false at
`for_in_init()`, and on a fresh `__seqiter` the `StopIteration` thrown by `__next__`
is caught in `__get_next`, so that `pyiter::for_in_has_next` returns false. -/
theorem empty_sequence_exhausted {α : Type} (M : Nat) (flag0 : Bool) :
    pyseq.for_in_has_next M ([] : List α) pyseq.for_in_init = false ∧
    (__seqiter.__next__ M ([] : List α) (pyseq.__iter__ M [] flag0)).1 =
      Except.error PyExc.StopIteration ∧
    (__iter.__get_next (__seqiter.__next__ M ([] : List α)) (pyseq.__iter__ M [] flag0)).1 =
      Except.ok none ∧
    (pyiter.for_in_has_next (__seqiter.__next__ M ([] : List α))
      (pyseq.__iter__ M [] flag0)).1 = Except.ok false := by
  have hnext : __seqiter.__next__ M ([] : List α) (pyseq.__iter__ M [] flag0) =
      (Except.error PyExc.StopIteration, pyseq.__iter__ M [] flag0) := by
    simp only [__seqiter.__next__, pyseq.__iter__, __seqiter.init, len_nil, if_true]
  have hget : __iter.__get_next (__seqiter.__next__ M ([] : List α))
      (pyseq.__iter__ M [] flag0) =
      (Except.ok none, { pyseq.__iter__ M ([] : List α) flag0 with __stop_iteration := true }) := by
    rw [__iter.__get_next, hnext]
    rfl
  refine ⟨?_, ?_, ?_, ?_⟩
  · simp only [pyseq.for_in_has_next, pyseq.for_in_init, len_nil, Nat.cast_zero,
      ssIntWrap_zero, lt_self_iff_false, decide_False]
  · rw [hnext]
  · rw [hget]
  · rw [pyiter.for_in_has_next, hget]
    rfl

/-- C6: for an iterator whose flag is clear and whose `__next__` returns an element
or raises `StopIteration` (leaving the flag as it found it), `__get_next` and
`pyiter::for_in_has_next` return normally; `__get_next` sets the flag iff `__next__`
raised `StopIteration`, and `for_in_has_next` returns false in that case and true
otherwise. -/
theorem get_next_catches_stop {σ α : Type} (next : IterMethod σ α) (it : __iter σ α)
    (hclear : it.__stop_iteration = false)
    (hframe : (next it).2.__stop_iteration = it.__stop_iteration)
    (hnext : (next it).1 = Except.error PyExc.StopIteration ∨ ∃ v, (next it).1 = Except.ok v) :
    (∃ r, (__iter.__get_next next it).1 = Except.ok r) ∧
    (∃ b, (pyiter.for_in_has_next next it).1 = Except.ok b) ∧
    ((__iter.__get_next next it).2.__stop_iteration = true ↔
      (next it).1 = Except.error PyExc.StopIteration) ∧
    ((pyiter.for_in_has_next next it).1 = Except.ok false ↔
      (next it).1 = Except.error PyExc.StopIteration) ∧
    ((pyiter.for_in_has_next next it).1 = Except.ok true ↔
      ∃ v, (next it).1 = Except.ok v) := by
  rw [hclear] at hframe
  rcases hnext with h | ⟨v, h⟩
  · have hn : next it = (Except.error PyExc.StopIteration, (next it).2) := by
      rw [← h]
    have hg : __iter.__get_next next it =
        (Except.ok (next it).2.__result, { (next it).2 with __stop_iteration := true }) := by
      rw [__iter.__get_next, hn]
    have hf : pyiter.for_in_has_next next it =
        (Except.ok false, { (next it).2 with __stop_iteration := true }) := by
      rw [pyiter.for_in_has_next, hg]
      rfl
    rw [hg, hf, h]
    refine ⟨⟨_, rfl⟩, ⟨_, rfl⟩, ?_, ?_, ?_⟩
    · simp only
    · simp only
    · constructor
      · intro hc
        injection hc with hc
        cases hc
      · rintro ⟨w, hw⟩
        cases hw
  · have hn : next it = (Except.ok v, (next it).2) := by
      rw [← h]
    have hg : __iter.__get_next next it =
        (Except.ok (some v), { (next it).2 with __result := some v }) := by
      rw [__iter.__get_next, hn]
    have hf : pyiter.for_in_has_next next it =
        (Except.ok true, { (next it).2 with __result := some v }) := by
      rw [pyiter.for_in_has_next, hg]
      simp only [hframe, Bool.not_false]
    rw [hg, hf, h]
    refine ⟨⟨_, rfl⟩, ⟨_, rfl⟩, ?_, ?_, ?_⟩
    · simp only [hframe]
      constructor
      · intro hc; cases hc
      · intro hc; cases hc
    · constructor
      · intro hc
        injection hc with hc
        cases hc
      · intro hc; cases hc
    · constructor
      · intro _; exact ⟨v, rfl⟩
      · intro _; rfl

theorem get_next_catches_stop_witness :
    (∃ r, (__iter.__get_next (__seqiter.__next__ 2147483648 [4, 5])
      (pyseq.__iter__ 2147483648 ([4, 5] : List Nat) false)).1 = Except.ok r) ∧
    (∃ b, (pyiter.for_in_has_next (__seqiter.__next__ 2147483648 [4, 5])
      (pyseq.__iter__ 2147483648 ([4, 5] : List Nat) false)).1 = Except.ok b) ∧
    ((__iter.__get_next (__seqiter.__next__ 2147483648 [4, 5])
      (pyseq.__iter__ 2147483648 ([4, 5] : List Nat) false)).2.__stop_iteration = true ↔
      (__seqiter.__next__ 2147483648 [4, 5]
        (pyseq.__iter__ 2147483648 ([4, 5] : List Nat) false)).1 =
        Except.error PyExc.StopIteration) ∧
    ((pyiter.for_in_has_next (__seqiter.__next__ 2147483648 [4, 5])
      (pyseq.__iter__ 2147483648 ([4, 5] : List Nat) false)).1 = Except.ok false ↔
      (__seqiter.__next__ 2147483648 [4, 5]
        (pyseq.__iter__ 2147483648 ([4, 5] : List Nat) false)).1 =
        Except.error PyExc.StopIteration) ∧
    ((pyiter.for_in_has_next (__seqiter.__next__ 2147483648 [4, 5])
      (pyseq.__iter__ 2147483648 ([4, 5] : List Nat) false)).1 = Except.ok true ↔
      ∃ v, (__seqiter.__next__ 2147483648 [4, 5]
        (pyseq.__iter__ 2147483648 ([4, 5] : List Nat) false)).1 = Except.ok v) :=
  get_next_catches_stop (__seqiter.__next__ 2147483648 [4, 5])
    (pyseq.__iter__ 2147483648 ([4, 5] : List Nat) false) rfl rfl
    (Or.inr ⟨4, rfl⟩)

theorem seqiter_next_at_end {α : Type} {M : Nat} (s : List α) (it : __iter __seqiter α)
    (h : it.fields.counter = it.fields.size) :
    __seqiter.__next__ M s it = (Except.error PyExc.StopIteration, it) := by
  simp only [__seqiter.__next__, h, if_true]

theorem seqiter_next_before_end {α : Type} {M : Nat} (s : List α) (it : __iter __seqiter α)
    (c : Nat) (hl : s.length < M) (hc : c < s.length)
    (hcnt : it.fields.counter = (c : Int)) (hsize : it.fields.size = (s.length : Int)) :
    __seqiter.__next__ M s it =
      (Except.ok (s.get ⟨c, hc⟩),
        { it with fields := { it.fields with counter := ((c + 1 : Nat) : Int) } }) := by
  have hne : ¬ ((c : Int) = (s.length : Int)) := by omega
  have hw : ssIntWrap M ((c : Int) + 1) = ((c + 1 : Nat) : Int) := by
    rw [ssIntWrap_of_isSsInt]
    · push_cast; rfl
    · constructor <;> omega
  simp only [__seqiter.__next__, hcnt, hsize, hne, if_false, getitem_nat s c hl hc, hw]

theorem seqiter_calls_at_end {α : Type} {M : Nat} (s : List α) :
    ∀ (m : Nat) (it : __iter __seqiter α), it.fields.counter = it.fields.size →
      __seqiter.nextCalls M s m it =
        (List.replicate m (Except.error PyExc.StopIteration), it) := by
  intro m
  induction m with
  | zero => intro it _; rfl
  | succ m ih =>
    intro it h
    rw [__seqiter.nextCalls]
    simp only [seqiter_next_at_end s it h, ih it h, List.replicate_succ]

theorem seqiter_calls_from {α : Type} {M : Nat} (s : List α) (hl : s.length < M) (m : Nat) :
    ∀ (k c : Nat) (it : __iter __seqiter α), c + k = s.length →
      it.fields.counter = (c : Int) → it.fields.size = (s.length : Int) →
      (__seqiter.nextCalls M s (k + m) it).1 =
        (s.drop c).map Except.ok ++ List.replicate m (Except.error PyExc.StopIteration) := by
  intro k
  induction k with
  | zero =>
    intro c it hck hcnt hsize
    have hc : c = s.length := by omega
    have hend : it.fields.counter = it.fields.size := by rw [hcnt, hsize, hc]
    rw [Nat.zero_add, seqiter_calls_at_end s m it hend, hc, List.drop_length]
    rfl
  | succ k ih =>
    intro c it hck hcnt hsize
    have hc : c < s.length := by omega
    have hk : k + 1 + m = (k + m) + 1 := by omega
    rw [hk, __seqiter.nextCalls]
    simp only [seqiter_next_before_end s it c hl hc hcnt hsize]
    have hrest := ih (c + 1)
      { it with fields := { it.fields with counter := ((c + 1 : Nat) : Int) } }
      (by omega) rfl hsize
    rw [hrest, List.drop_eq_getElem_cons hc]
    simp only [List.get_eq_getElem, List.map_cons, List.cons_append]

/-- C7: the iterator `pyseq::__iter__` returns on a sequence `s` of length `n` has
counter `0` and size `n`; while `s` is not modified its first `n` calls of `__next__`
return `s[0], ..., s[n-1]` in order, and each of any number `m` of later calls raises
`StopIteration`. -/
theorem seqiter_yields_then_stops {α : Type} (M : Nat) (s : List α) (flag0 : Bool)
    (hl : s.length < M) :
    (pyseq.__iter__ M s flag0).fields = { counter := 0, size := (s.length : Int) } ∧
    ∀ (m : Nat),
      (__seqiter.nextCalls M s (s.length + m) (pyseq.__iter__ M s flag0)).1 =
        s.map Except.ok ++ List.replicate m (Except.error PyExc.StopIteration) := by
  have hf : (pyseq.__iter__ M s flag0).fields = { counter := 0, size := (s.length : Int) } := by
    simp only [pyseq.__iter__, __seqiter.init, len_eq_length s hl]
  refine ⟨hf, ?_⟩
  intro m
  have h := seqiter_calls_from s hl m s.length 0 (pyseq.__iter__ M s flag0) (by omega)
    (by rw [hf]; rfl) (by rw [hf])
  simpa using h

theorem seqiter_yields_then_stops_witness :
    (pyseq.__iter__ 2147483648 ([7, 8, 9] : List Nat) false).fields =
      { counter := 0, size := (([7, 8, 9] : List Nat).length : Int) } ∧
    ∀ (m : Nat),
      (__seqiter.nextCalls 2147483648 [7, 8, 9] (([7, 8, 9] : List Nat).length + m)
        (pyseq.__iter__ 2147483648 ([7, 8, 9] : List Nat) false)).1 =
        ([7, 8, 9] : List Nat).map Except.ok ++
          List.replicate m (Except.error PyExc.StopIteration) :=
  seqiter_yields_then_stops 2147483648 ([7, 8, 9] : List Nat) false (by decide)

/-! ## Deep copy -/

theorem dict_get_eq_zero_not_mem (m : Memo) (t : Nat) (hinv : MemoInv m)
    (h : dict.get m t 0 = 0) : t ∉ dict.keys m := by
  rw [dict.get] at h
  split at h
  · next e he =>
    exact absurd h (hinv e (List.mem_of_find?_eq_some he))
  · next hnone =>
    rw [List.find?_eq_none] at hnone
    intro hmem
    rw [dict.keys, List.mem_map] at hmem
    obtain ⟨e, he, hk⟩ := hmem
    exact hnone e he (by simpa using hk)

theorem dict_setitem_fresh (m : Memo) (t c : Nat) (h : t ∉ dict.keys m) :
    dict.__setitem__ m t c = m ++ [(t, c)] := by
  have hany : m.any (fun e => decide (e.1 = t)) = false := by
    rw [Bool.eq_false_iff]
    intro hc
    rw [List.any_eq_true] at hc
    obtain ⟨e, he, hk⟩ := hc
    apply h
    rw [dict.keys, List.mem_map]
    exact ⟨e, he, by simpa using hk⟩
  rw [dict.__setitem__, hany]
  simp only [Bool.false_eq_true, if_false]

theorem copyPost_refl (V : Finset Nat) (m : Memo) (w : World) (hinv : MemoInv m) :
    CopyPost V m w m w :=
  ⟨hinv, fun _ hx => hx, [], rfl, List.nodup_nil, fun _ hx => absurd hx (List.not_mem_nil _)⟩

theorem copyPost_trans (V : Finset Nat) {m m1 m2 : Memo} {w w1 w2 : World}
    (h1 : CopyPost V m w m1 w1) (h2 : CopyPost V m1 w1 m2 w2) : CopyPost V m w m2 w2 := by
  obtain ⟨_, hk1, new1, hc1, hn1, he1⟩ := h1
  obtain ⟨hinv2, hk2, new2, hc2, hn2, he2⟩ := h2
  refine ⟨hinv2, fun x hx => hk2 x (hk1 x hx), new2 ++ new1, ?_, ?_, ?_⟩
  · rw [hc2, hc1, List.append_assoc]
  · rw [List.nodup_append]
    refine ⟨hn2, hn1, ?_⟩
    intro x hx2 hx1
    exact (he2 x hx2).2.1 (he1 x hx1).2.2
  · intro x hx
    rw [List.mem_append] at hx
    rcases hx with hx | hx
    · exact ⟨(he2 x hx).1, fun hm => (he2 x hx).2.1 (hk1 x hm), (he2 x hx).2.2⟩
    · exact ⟨(he1 x hx).1, (he1 x hx).2.1, hk2 x (he1 x hx).2.2⟩

theorem unvisited_card_mono (V : Finset Nat) {m m1 : Memo}
    (hk : ∀ x ∈ dict.keys m, x ∈ dict.keys m1) :
    (unvisited V m1).card ≤ (unvisited V m).card := by
  apply Finset.card_le_card
  intro x hx
  rw [unvisited, Finset.mem_filter] at hx ⊢
  exact ⟨hx.1, fun hm => hx.2 (hk x hm)⟩

theorem unvisited_card_lt (V : Finset Nat) {m m1 : Memo} (t : Nat)
    (hk : ∀ x ∈ dict.keys m, x ∈ dict.keys m1)
    (htV : t ∈ V) (ht : t ∉ dict.keys m) (ht1 : t ∈ dict.keys m1) :
    (unvisited V m1).card < (unvisited V m).card := by
  apply Finset.card_lt_card
  rw [Finset.ssubset_iff_of_subset]
  · refine ⟨t, ?_, ?_⟩
    · rw [unvisited, Finset.mem_filter]
      exact ⟨htV, ht⟩
    · rw [unvisited, Finset.mem_filter]
      intro hc
      exact hc.2 ht1
  · intro x hx
    rw [unvisited, Finset.mem_filter] at hx ⊢
    exact ⟨hx.1, fun hm => hx.2 (hk x hm)⟩

theorem deepcopyChildren_returns (V : Finset Nat) (f : Nat)
    (copy : Nat → Memo → World → Option (Nat × Memo × World))
    (hcopy : ∀ (ch : Nat) (m : Memo) (w : World), (ch = 0 ∨ ch ∈ V) → MemoInv m →
      (unvisited V m).card < f →
      ∃ u m1 w1, copy ch m w = some (u, m1, w1) ∧ CopyPost V m w m1 w1) :
    ∀ (cs : List Nat) (m : Memo) (w : World), (∀ ch ∈ cs, ch = 0 ∨ ch ∈ V) → MemoInv m →
      (unvisited V m).card < f →
      ∃ us m1 w1, deepcopyChildren copy cs m w = some (us, m1, w1) ∧ CopyPost V m w m1 w1 := by
  intro cs
  induction cs with
  | nil =>
    intro m w _ hinv _
    exact ⟨[], m, w, rfl, copyPost_refl V m w hinv⟩
  | cons c cs ih =>
    intro m w hcs hinv hcard
    obtain ⟨u, m1, w1, he1, hp1⟩ := hcopy c m w (hcs c (List.mem_cons_self _ _)) hinv hcard
    have hcard1 : (unvisited V m1).card < f :=
      Nat.lt_of_le_of_lt (unvisited_card_mono V hp1.2.1) hcard
    obtain ⟨us, m2, w2, he2, hp2⟩ :=
      ih m1 w1 (fun ch hch => hcs ch (List.mem_cons_of_mem _ hch)) hp1.1 hcard1
    refine ⟨u :: us, m2, w2, ?_, copyPost_trans V hp1 hp2⟩
    rw [deepcopyChildren, he1]
    simp only [he2]

theorem deepcopy_returns (children : Nat → List Nat) (V : Finset Nat)
    (hclosed : ∀ t ∈ V, ∀ ch ∈ children t, ch = 0 ∨ ch ∈ V) :
    ∀ (fuel t : Nat) (m : Memo) (w : World), (t = 0 ∨ t ∈ V) → MemoInv m →
      (unvisited V m).card < fuel →
      ∃ u m1 w1, __deepcopy (objDeepcopy children fuel) t (some m) w = some (u, m1, w1) ∧
        CopyPost V m w m1 w1 ∧ (t ≠ 0 → u ≠ 0) := by
  intro fuel
  induction fuel with
  | zero => intro t m w _ _ h; omega
  | succ f ih =>
    intro t m w ht hinv hcard
    by_cases h0 : t = 0
    · refine ⟨0, m, w, ?_, copyPost_refl V m w hinv, fun h => absurd h0 h⟩
      simp only [__deepcopy, h0, if_true, Option.getD_some]
    · have htV : t ∈ V := ht.resolve_left h0
      by_cases hu : dict.get m t 0 ≠ 0
      · refine ⟨dict.get m t 0, m, w, ?_, copyPost_refl V m w hinv, fun _ => hu⟩
        simp only [__deepcopy, h0, if_false, hu, ne_eq, not_false_eq_true, if_true]
      · have hu0 : dict.get m t 0 = 0 := not_not.mp hu
        have hfresh : t ∉ dict.keys m := dict_get_eq_zero_not_mem m t hinv hu0
        have hinv1 : MemoInv (m ++ [(t, w.alloc + 1)]) := by
          intro e he
          rw [List.mem_append, List.mem_singleton] at he
          rcases he with he | he
          · exact hinv e he
          · rw [he]; exact Nat.succ_ne_zero _
        have hkeys1 : ∀ x ∈ dict.keys m, x ∈ dict.keys (m ++ [(t, w.alloc + 1)]) := by
          intro x hx
          simp only [dict.keys, List.map_append, List.mem_append] at hx ⊢
          exact Or.inl hx
        have ht1 : t ∈ dict.keys (m ++ [(t, w.alloc + 1)]) := by
          simp [dict.keys]
        have hcard1 : (unvisited V (m ++ [(t, w.alloc + 1)])).card < f := by
          have := unvisited_card_lt V t hkeys1 htV hfresh ht1
          omega
        obtain ⟨us, m2, w2, he2, hp2⟩ := deepcopyChildren_returns V f
          (fun ch m3 w3 => __deepcopy (objDeepcopy children f) ch (some m3) w3)
          (fun ch m3 w3 hch hi3 hc3 => by
            obtain ⟨u, m4, w4, h4, hp4, _⟩ := ih ch m3 w3 hch hi3 hc3
            exact ⟨u, m4, w4, h4, hp4⟩)
          (children t) (m ++ [(t, w.alloc + 1)])
          { calls := t :: w.calls, alloc := w.alloc + 1 }
          (hclosed t htV) hinv1 hcard1
        obtain ⟨hinv2, hk2, new, hc2, hn2, hel2⟩ := hp2
        refine ⟨w.alloc + 1, m2, w2, ?_, ⟨hinv2, fun x hx => hk2 x (hkeys1 x hx),
          new ++ [t], ?_, ?_, ?_⟩, fun _ => Nat.succ_ne_zero _⟩
        · have hstep : objDeepcopy children (f + 1) t m { calls := t :: w.calls, alloc := w.alloc }
              = some (w.alloc + 1, m2, w2) := by
            rw [objDeepcopy]
            simp only [dict_setitem_fresh m t (w.alloc + 1) hfresh, he2]
          rw [__deepcopy]
          simp only [h0, if_false, hu, hstep]
        · rw [hc2]
          simp only [List.append_assoc, List.singleton_append]
        · rw [List.nodup_append]
          refine ⟨hn2, List.nodup_singleton t, ?_⟩
          intro x hx hxt
          rw [List.mem_singleton] at hxt
          subst hxt
          exact (hel2 x hx).2.1 ht1
        · intro x hx
          rw [List.mem_append, List.mem_singleton] at hx
          rcases hx with hx | hx
          · exact ⟨(hel2 x hx).1, fun hm => (hel2 x hx).2.1 (hkeys1 x hm), (hel2 x hx).2.2⟩
          · subst hx
            exact ⟨htV, hfresh, hk2 x ht1⟩

/-- C8: when the memo maps the address of a non-null `t` to a non-null copy `c`,
`__deepcopy(t, memo)` returns `c`, makes no `__deepcopy__` call and leaves the memo
as it was, whatever `__deepcopy__` is; hence once a deep copy of `t` has recorded its
result in the memo, another deep copy of `t` with that memo returns the identical
copy. -/
theorem deepcopy_memo_hit (dc : DeepcopyMethod) (t c : Nat) (m : Memo) (w : World)
    (ht : t ≠ 0) (hc : c ≠ 0) (hm : dict.get m t 0 = c) :
    __deepcopy dc t (some m) w = some (c, m, w) ∧
    __deepcopy (fun _ _ _ => none) t (some m) w = some (c, m, w) ∧
    (∀ (m0 : Memo) (w0 : World) (u : Nat) (m1 : Memo) (w1 : World),
      __deepcopy dc t (some m0) w0 = some (u, m1, w1) → u ≠ 0 → dict.get m1 t 0 = u →
      ∀ (w2 : World), ∃ m2 w3, __deepcopy dc t (some m1) w2 = some (u, m2, w3)) := by
  have key : ∀ (dc1 : DeepcopyMethod) (c1 : Nat) (m1 : Memo) (w1 : World),
      c1 ≠ 0 → dict.get m1 t 0 = c1 → __deepcopy dc1 t (some m1) w1 = some (c1, m1, w1) := by
    intro dc1 c1 m1 w1 hc1 hm1
    rw [__deepcopy]
    simp only [ht, if_false, hm1, ne_eq, hc1, not_false_eq_true, if_true]
  refine ⟨key dc c m w hc hm, key _ c m w hc hm, ?_⟩
  intro m0 w0 u m1 w1 _ hu hm1 w2
  exact ⟨m1, w2, key dc u m1 w2 hu hm1⟩

theorem deepcopy_memo_hit_witness :
    __deepcopy (objDeepcopy (fun _ => [7]) 5) 7 (some [(7, 101)]) ⟨[], 101⟩ =
      some (101, [(7, 101)], ⟨[], 101⟩) ∧
    __deepcopy (fun _ _ _ => none) 7 (some [(7, 101)]) ⟨[], 101⟩ =
      some (101, [(7, 101)], ⟨[], 101⟩) ∧
    (∀ (m0 : Memo) (w0 : World) (u : Nat) (m1 : Memo) (w1 : World),
      __deepcopy (objDeepcopy (fun _ => [7]) 5) 7 (some m0) w0 = some (u, m1, w1) →
      u ≠ 0 → dict.get m1 7 0 = u →
      ∀ (w2 : World), ∃ m2 w3,
        __deepcopy (objDeepcopy (fun _ => [7]) 5) 7 (some m1) w2 = some (u, m2, w3)) :=
  deepcopy_memo_hit (objDeepcopy (fun _ => [7]) 5) 7 101 [(7, 101)] ⟨[], 101⟩
    (by decide) (by decide) (by decide)

/-- C9: on a finite set `V` of objects closed under `children` (cycles allowed), each
object recording its copy in the memo before deep-copying its children through
`__deepcopy`, the call `__deepcopy(t)` without a memo returns whenever more than
`|V|` nested calls are allowed, returns a non-null copy for a non-null `t`, and the
`__deepcopy__` calls it makes are on pairwise distinct objects of `V`. -/
theorem deepcopy_terminates (children : Nat → List Nat) (V : Finset Nat)
    (hclosed : ∀ t ∈ V, ∀ ch ∈ children t, ch = 0 ∨ ch ∈ V)
    (t : Nat) (ht : t ∈ V) (fuel : Nat) (hfuel : V.card < fuel) (w : World) :
    ∃ u m1 w1, __deepcopy (objDeepcopy children fuel) t none w = some (u, m1, w1) ∧
      (t ≠ 0 → u ≠ 0) ∧
      ∃ new : List Nat, w1.calls = new ++ w.calls ∧ new.Nodup ∧ ∀ x ∈ new, x ∈ V := by
  have hinv : MemoInv [] := fun e he => absurd he (List.not_mem_nil _)
  have hcard : (unvisited V []).card < fuel :=
    Nat.lt_of_le_of_lt (Finset.card_le_card (Finset.filter_subset _ _)) hfuel
  obtain ⟨u, m1, w1, he, ⟨_, _, new, hc, hn, hel⟩, hu⟩ :=
    deepcopy_returns children V hclosed fuel t [] w (Or.inr ht) hinv hcard
  refine ⟨u, m1, w1, ?_, hu, new, hc, hn, fun x hx => (hel x hx).1⟩
  rw [← he]
  simp only [__deepcopy, Option.getD_none, Option.getD_some]

theorem deepcopy_terminates_witness :
    ∃ u m1 w1,
      __deepcopy (objDeepcopy (fun t => if t = 1 then [2, 2, 1] else if t = 2 then [1] else [])
        3) 1 none ⟨[], 100⟩ = some (u, m1, w1) ∧
      ((1 : Nat) ≠ 0 → u ≠ 0) ∧
      ∃ new : List Nat, w1.calls = new ++ (⟨[], 100⟩ : World).calls ∧ new.Nodup ∧
        ∀ x ∈ new, x ∈ ({1, 2} : Finset Nat) :=
  deepcopy_terminates (fun t => if t = 1 then [2, 2, 1] else if t = 2 then [1] else [])
    ({1, 2} : Finset Nat) (by decide) 1 (by decide) 3 (by decide) ⟨[], 100⟩

/-! ## Iteration over a dict -/

theorem dict_advance_of_mem {K V : Type} [DecidableEq K] :
    ∀ (d : dict K V) (k : K), k ∈ dict.keys d → ∃ nxt, dict.advance d k = some nxt := by
  intro d
  induction d with
  | nil => intro k hk; simp [dict.keys] at hk
  | cons e rest ih =>
    intro k hk
    by_cases he : e.1 = k
    · exact ⟨rest.head?.map Prod.fst, by simp only [dict.advance, he, if_true]⟩
    · have hk2 : k ∈ dict.keys rest := by
        simp only [dict.keys, List.map_cons, List.mem_cons] at hk
        rcases hk with hk | hk
        · exact absurd hk.symm he
        · exact hk
      obtain ⟨nxt, hn⟩ := ih k hk2
      exact ⟨nxt, by simp only [dict.advance, he, if_false, hn]⟩

theorem dict_keys_delitem {K V : Type} [DecidableEq K] (d : dict K V) (k k2 : K)
    (hk : k ∈ dict.keys d) (hne : k2 ≠ k) : k ∈ dict.keys (dict.__delitem__ d k2) := by
  simp only [dict.keys, List.mem_map] at hk ⊢
  obtain ⟨e, he, hek⟩ := hk
  refine ⟨e, ?_, hek⟩
  rw [dict.__delitem__, List.mem_filter]
  refine ⟨he, ?_⟩
  rw [decide_eq_true_iff, hek]
  exact fun h => hne h.symm

/-- C10, as the code behaves: the dict triad has no detection of a changed table.
`for_in_has_next` never raises and `for_in_next` raises nothing where it is defined;
after the removal of a key other than the one under the cursor, the next
`for_in_has_next` returns true and the next `for_in_next` returns the key under the
cursor. -/
theorem dict_for_in_after_removal {K V : Type} [DecidableEq K] (d : dict K V) (k k2 : K)
    (hk : k ∈ dict.keys d) (hne : k2 ≠ k) :
    (∀ (d1 : dict K V) (l : dict_looper K), ∃ b, dict.for_in_has_next d1 l = Except.ok b) ∧
    (∀ (d1 : dict K V) (l : dict_looper K) (r : Except PyExc K × dict_looper K),
      dict.for_in_next d1 l = some r → ∃ k1, r.1 = Except.ok k1) ∧
    dict.for_in_has_next (dict.__delitem__ d k2) { it := some k } = Except.ok true ∧
    ∃ nxt, dict.for_in_next (dict.__delitem__ d k2) { it := some k } =
      some (Except.ok k, nxt) := by
  refine ⟨fun d1 l => ⟨l.it.isSome, rfl⟩, ?_, rfl, ?_⟩
  · intro d1 l r hr
    rw [dict.for_in_next] at hr
    cases hl : l.it with
    | none =>
      simp only [hl] at hr
      cases hr
    | some k1 =>
      simp only [hl] at hr
      cases ha : dict.advance d1 k1 with
      | none =>
        simp only [ha] at hr
        cases hr
      | some nxt =>
        simp only [ha, Option.some.injEq] at hr
        exact ⟨k1, by rw [← hr]⟩
  · obtain ⟨nxt, hn⟩ := dict_advance_of_mem (dict.__delitem__ d k2) k
      (dict_keys_delitem d k k2 hk hne)
    exact ⟨{ it := nxt }, by simp only [dict.for_in_next, hn]⟩

theorem dict_for_in_after_removal_witness :
    (∀ (d1 : dict Nat Nat) (l : dict_looper Nat),
      ∃ b, dict.for_in_has_next d1 l = Except.ok b) ∧
    (∀ (d1 : dict Nat Nat) (l : dict_looper Nat) (r : Except PyExc Nat × dict_looper Nat),
      dict.for_in_next d1 l = some r → ∃ k1, r.1 = Except.ok k1) ∧
    dict.for_in_has_next (dict.__delitem__ ([(1, 10), (2, 20), (3, 30)] : dict Nat Nat) 3)
      { it := some 2 } = Except.ok true ∧
    ∃ nxt, dict.for_in_next (dict.__delitem__ ([(1, 10), (2, 20), (3, 30)] : dict Nat Nat) 3)
      { it := some 2 } = some (Except.ok 2, nxt) :=
  dict_for_in_after_removal ([(1, 10), (2, 20), (3, 30)] : dict Nat Nat) 2 3
    (by decide) (by decide)

/-- C10, counterexample: the iteration over the dict with keys `1, 2, 3` has
produced `1` and its cursor is at `2`; key `3` is then removed.  The next
`for_in_has_next` returns true and the next `for_in_next` returns `2`: neither
raises the table-changed error. -/
theorem dict_removal_not_detected :
    dict.for_in_next ([(1, 10), (2, 20), (3, 30)] : dict Nat Nat)
      (dict.for_in_init ([(1, 10), (2, 20), (3, 30)] : dict Nat Nat)) =
      some (Except.ok 1, { it := some 2 }) ∧
    dict.__delitem__ ([(1, 10), (2, 20), (3, 30)] : dict Nat Nat) 3 = [(1, 10), (2, 20)] ∧
    dict.for_in_has_next (dict.__delitem__ ([(1, 10), (2, 20), (3, 30)] : dict Nat Nat) 3)
      { it := some 2 } = Except.ok true ∧
    dict.for_in_next (dict.__delitem__ ([(1, 10), (2, 20), (3, 30)] : dict Nat Nat) 3)
      { it := some 2 } = some (Except.ok 2, { it := none }) ∧
    dict.for_in_has_next (dict.__delitem__ ([(1, 10), (2, 20), (3, 30)] : dict Nat Nat) 3)
      { it := some 2 } ≠ Except.error PyExc.DictChanged := by
  refine ⟨rfl, rfl, rfl, rfl, ?_⟩
  intro h
  cases h


/-! ## Unpacking -/

/-- C11: `__unpack_check(t, n)` raises `ValueError` if and only if `len(t) != n`, with
the message "too many values to unpack" when `len(t) > n` and "not enough values to
unpack" when `len(t) < n`; it returns normally when `len(t) == n`. -/
theorem unpack_check_raises_iff {α : Type} (M : Nat) (t : List α) (n : Int)
    (hl : t.length < M) :
    ((∃ msg, __unpack_check M t n = Except.error (PyExc.ValueError msg)) ↔
      (t.length : Int) ≠ n) ∧
    ((t.length : Int) > n →
      __unpack_check M t n = Except.error (PyExc.ValueError "too many values to unpack")) ∧
    ((t.length : Int) < n →
      __unpack_check M t n = Except.error (PyExc.ValueError "not enough values to unpack")) ∧
    ((t.length : Int) = n → __unpack_check M t n = Except.ok ()) := by
  have hgt : (t.length : Int) > n →
      __unpack_check M t n = Except.error (PyExc.ValueError "too many values to unpack") := by
    intro h
    simp only [__unpack_check, len_eq_length t hl, h, if_true]
  have hlt : (t.length : Int) < n →
      __unpack_check M t n =
        Except.error (PyExc.ValueError "not enough values to unpack") := by
    intro h
    have h1 : ¬ ((t.length : Int) > n) := by omega
    simp only [__unpack_check, len_eq_length t hl, h1, if_false, h, if_true]
  have heq : (t.length : Int) = n → __unpack_check M t n = Except.ok () := by
    intro h
    have h1 : ¬ ((t.length : Int) > n) := by omega
    have h2 : ¬ ((t.length : Int) < n) := by omega
    simp only [__unpack_check, len_eq_length t hl, h1, h2, if_false]
  refine ⟨?_, hgt, hlt, heq⟩
  constructor
  · rintro ⟨msg, hmsg⟩ hc
    rw [heq hc] at hmsg
    cases hmsg
  · intro hne
    rcases lt_or_gt_of_ne hne with h | h
    · exact ⟨_, hlt h⟩
    · exact ⟨_, hgt h⟩

theorem unpack_check_raises_iff_witness :
    ((∃ msg, __unpack_check 2147483648 ([1, 2, 3] : List Nat) 2 =
        Except.error (PyExc.ValueError msg)) ↔
      ((([1, 2, 3] : List Nat).length : Int)) ≠ 2) ∧
    ((([1, 2, 3] : List Nat).length : Int) > 2 →
      __unpack_check 2147483648 ([1, 2, 3] : List Nat) 2 =
        Except.error (PyExc.ValueError "too many values to unpack")) ∧
    ((([1, 2, 3] : List Nat).length : Int) < 2 →
      __unpack_check 2147483648 ([1, 2, 3] : List Nat) 2 =
        Except.error (PyExc.ValueError "not enough values to unpack")) ∧
    ((([1, 2, 3] : List Nat).length : Int) = 2 →
      __unpack_check 2147483648 ([1, 2, 3] : List Nat) 2 = Except.ok ()) :=
  unpack_check_raises_iff 2147483648 ([1, 2, 3] : List Nat) 2 (by decide)

/-! ## Order properties of the sequence comparison -/

theorem firstDiff_antisymm {α : Type} (cmpE : α → α → Int)
    (hanti : ∀ x y, Int.sign (cmpE x y) = -Int.sign (cmpE y x)) :
    ∀ (xs ys : List α) (d1 d2 : Int), Int.sign d1 = -Int.sign d2 →
      Int.sign (firstDiff cmpE d1 xs ys) = -Int.sign (firstDiff cmpE d2 ys xs) := by
  intro xs
  induction xs with
  | nil =>
    intro ys d1 d2 hd
    cases ys with
    | nil => simpa only [firstDiff] using hd
    | cons y ys => simpa only [firstDiff] using hd
  | cons x xs ih =>
    intro ys d1 d2 hd
    cases ys with
    | nil => simpa only [firstDiff] using hd
    | cons y ys =>
      by_cases h0 : cmpE x y = 0
      · have h1 : cmpE y x = 0 := by
          have h := hanti x y
          rw [h0, Int.sign_zero] at h
          have h2 : Int.sign (cmpE y x) = 0 := by omega
          exact Int.sign_eq_zero_iff_zero.mp h2
        simp only [firstDiff, h0, h1, ne_eq, not_true_eq_false, if_false]
        exact ih ys d1 d2 hd
      · have h1 : cmpE y x ≠ 0 := by
          intro hc
          have h := hanti x y
          rw [hc, Int.sign_zero] at h
          exact h0 (Int.sign_eq_zero_iff_zero.mp (by omega))
        simp only [firstDiff, h0, h1, ne_eq, not_false_eq_true, if_true]
        exact hanti x y

theorem cmp_int_antisymm (x y : Int) : Int.sign (__cmp x y) = -Int.sign (__cmp y x) := by
  rcases lt_trichotomy x y with h | h | h
  · have h1 : ¬ (y < x) := by omega
    have h2 : y > x := h
    simp only [__cmp, h, h1, h2, if_true, if_false]
    decide
  · subst h
    simp only [__cmp, lt_self_iff_false, gt_iff_lt, if_false]
    decide
  · have h1 : ¬ (x < y) := by omega
    have h2 : x > y := h
    simp only [__cmp, h, h1, h2, if_true, if_false]
    decide

/-- C13: when the element comparison is antisymmetric in sign, for non-null
sequences `a` and `b` the sign of `a.__cmp__(b)` is the opposite of the sign of
`b.__cmp__(a)`, and `a.__cmp__(a)` is `0`. -/
theorem pyseq_cmp_antisymm {α : Type} (M : Nat) (cmpE : α → α → Int) (a b : List α)
    (ha : a.length < M) (hb : b.length < M)
    (hanti : ∀ x y, Int.sign (cmpE x y) = -Int.sign (cmpE y x)) :
    (∃ r1 r2, pyseq.__cmp__ M cmpE a (some b) = Except.ok r1 ∧
      pyseq.__cmp__ M cmpE b (some a) = Except.ok r2 ∧ Int.sign r1 = -Int.sign r2) ∧
    pyseq.__cmp__ M cmpE a (some a) = Except.ok 0 := by
  constructor
  · refine ⟨_, _, pyseq_cmp_eq_firstDiff cmpE a b ha hb,
      pyseq_cmp_eq_firstDiff cmpE b a hb ha, ?_⟩
    exact firstDiff_antisymm cmpE hanti a b _ _ (cmp_int_antisymm _ _)
  · have hrefl : ∀ x, cmpE x x = 0 := by
      intro x
      have h := hanti x x
      exact Int.sign_eq_zero_iff_zero.mp (by omega)
    rw [pyseq_cmp_eq_firstDiff cmpE a a ha ha]
    have h0 : firstDiff cmpE (__cmp (a.length : Int) (a.length : Int)) a a = 0 := by
      rw [firstDiff_eq_zero_iff]
      refine ⟨by simp only [__cmp, lt_self_iff_false, gt_iff_lt, if_false], ?_⟩
      intro j u v hu hv
      rw [hu] at hv
      injection hv with hv
      rw [← hv]
      exact hrefl u
    rw [h0]

theorem pyseq_cmp_antisymm_witness :
    (∃ r1 r2, pyseq.__cmp__ 2147483648 __cmp ([1, 2, 3] : List Int) (some [1, 5]) =
        Except.ok r1 ∧
      pyseq.__cmp__ 2147483648 __cmp ([1, 5] : List Int) (some [1, 2, 3]) = Except.ok r2 ∧
      Int.sign r1 = -Int.sign r2) ∧
    pyseq.__cmp__ 2147483648 __cmp ([1, 2, 3] : List Int) (some [1, 2, 3]) = Except.ok 0 :=
  pyseq_cmp_antisymm 2147483648 __cmp ([1, 2, 3] : List Int) [1, 5] (by decide) (by decide)
    cmp_int_antisymm

theorem firstDiff_trans {α : Type} (cmpE : α → α → Int)
    (htrans : ∀ x y z, cmpE x y < 0 → cmpE y z < 0 → cmpE x z < 0)
    (heqv : ∀ x y z, cmpE x y = 0 → cmpE y z = 0 → cmpE x z = 0)
    (hleft : ∀ x y z, cmpE x y = 0 → cmpE y z < 0 → cmpE x z < 0)
    (hright : ∀ x y z, cmpE x y < 0 → cmpE y z = 0 → cmpE x z < 0) :
    ∀ (xs ys zs : List α) (d1 d2 d3 : Int),
      (d1 < 0 → xs.length < ys.length) → (d2 < 0 → ys.length < zs.length) →
      (xs.length < zs.length → d3 < 0) →
      firstDiff cmpE d1 xs ys < 0 → firstDiff cmpE d2 ys zs < 0 →
      firstDiff cmpE d3 xs zs < 0 := by
  intro xs
  induction xs with
  | nil =>
    intro ys zs d1 d2 d3 h1 h2 h3 hxy hyz
    have hd1 : d1 < 0 := by
      cases ys <;> simpa only [firstDiff] using hxy
    have hys := h1 hd1
    cases ys with
    | nil => simp at hys
    | cons y ys =>
      cases zs with
      | nil =>
        have hd2 : d2 < 0 := by simpa only [firstDiff] using hyz
        have := h2 hd2
        simp at this
      | cons z zs =>
        simp only [firstDiff]
        exact h3 (by simp)
  | cons x xs ih =>
    intro ys zs d1 d2 d3 h1 h2 h3 hxy hyz
    cases ys with
    | nil =>
      have hd1 : d1 < 0 := by simpa only [firstDiff] using hxy
      have := h1 hd1
      simp at this
    | cons y ys =>
      cases zs with
      | nil =>
        have hd2 : d2 < 0 := by simpa only [firstDiff] using hyz
        have := h2 hd2
        simp at this
      | cons z zs =>
        by_cases c1 : cmpE x y = 0
        · by_cases c2 : cmpE y z = 0
          · have c3 : cmpE x z = 0 := heqv x y z c1 c2
            simp only [firstDiff, c1, c2, c3, ne_eq, not_true_eq_false, if_false] at hxy hyz ⊢
            apply ih ys zs d1 d2 d3 _ _ _ hxy hyz
            · intro h; have := h1 h; simp only [List.length_cons] at this; omega
            · intro h; have := h2 h; simp only [List.length_cons] at this; omega
            · intro h; apply h3; simp only [List.length_cons]; omega
          · simp only [firstDiff, c2, ne_eq, not_false_eq_true, if_true] at hyz
            have c3 : cmpE x z < 0 := hleft x y z c1 hyz
            have c3n : cmpE x z ≠ 0 := by omega
            simp only [firstDiff, c3n, ne_eq, not_false_eq_true, if_true]
            exact c3
        · simp only [firstDiff, c1, ne_eq, not_false_eq_true, if_true] at hxy
          by_cases c2 : cmpE y z = 0
          · have c3 : cmpE x z < 0 := hright x y z hxy c2
            have c3n : cmpE x z ≠ 0 := by omega
            simp only [firstDiff, c3n, ne_eq, not_false_eq_true, if_true]
            exact c3
          · simp only [firstDiff, c2, ne_eq, not_false_eq_true, if_true] at hyz
            have c3 : cmpE x z < 0 := htrans x y z hxy hyz
            have c3n : cmpE x z ≠ 0 := by omega
            simp only [firstDiff, c3n, ne_eq, not_false_eq_true, if_true]
            exact c3

theorem cmp_int_neg_iff (x y : Int) : __cmp x y < 0 ↔ x < y := by
  rw [__cmp]
  split
  · simp only [*, iff_true]; decide
  · split
    · simp only [*, iff_false]; decide
    · simp only [*, iff_false]; decide

/-- C14: when the element comparison is transitive and comparing `0` is an
equivalence compatible with it, for non-null sequences `a`, `b`, `c`,
`a.__cmp__(b) < 0` and `b.__cmp__(c) < 0` imply `a.__cmp__(c) < 0`. -/
theorem pyseq_cmp_trans {α : Type} (M : Nat) (cmpE : α → α → Int) (a b c : List α)
    (ha : a.length < M) (hb : b.length < M) (hc : c.length < M)
    (htrans : ∀ x y z, cmpE x y < 0 → cmpE y z < 0 → cmpE x z < 0)
    (heqv : ∀ x y z, cmpE x y = 0 → cmpE y z = 0 → cmpE x z = 0)
    (hleft : ∀ x y z, cmpE x y = 0 → cmpE y z < 0 → cmpE x z < 0)
    (hright : ∀ x y z, cmpE x y < 0 → cmpE y z = 0 → cmpE x z < 0)
    (r1 r2 : Int) (hab : pyseq.__cmp__ M cmpE a (some b) = Except.ok r1) (h1 : r1 < 0)
    (hbc : pyseq.__cmp__ M cmpE b (some c) = Except.ok r2) (h2 : r2 < 0) :
    ∃ r3, pyseq.__cmp__ M cmpE a (some c) = Except.ok r3 ∧ r3 < 0 := by
  rw [pyseq_cmp_eq_firstDiff cmpE a b ha hb] at hab
  rw [pyseq_cmp_eq_firstDiff cmpE b c hb hc] at hbc
  injection hab with hab
  injection hbc with hbc
  refine ⟨_, pyseq_cmp_eq_firstDiff cmpE a c ha hc, ?_⟩
  apply firstDiff_trans cmpE htrans heqv hleft hright a b c
    (__cmp (a.length : Int) (b.length : Int)) (__cmp (b.length : Int) (c.length : Int))
  · intro h; have := (cmp_int_neg_iff _ _).mp h; omega
  · intro h; have := (cmp_int_neg_iff _ _).mp h; omega
  · intro h; apply (cmp_int_neg_iff _ _).mpr; omega
  · rw [hab]; exact h1
  · rw [hbc]; exact h2

theorem cmp_int_zero_iff (x y : Int) : __cmp x y = 0 ↔ x = y := by
  rw [__cmp]
  split
  · constructor
    · intro h; exact absurd h (by decide)
    · intro h; omega
  · split
    · constructor
      · intro h; exact absurd h (by decide)
      · intro h; omega
    · constructor
      · intro _; omega
      · intro _; rfl

theorem pyseq_cmp_trans_witness :
    ∃ r3, pyseq.__cmp__ 2147483648 __cmp ([1, 2] : List Int) (some [1, 3, 0]) = Except.ok r3 ∧
      r3 < 0 :=
  pyseq_cmp_trans 2147483648 __cmp ([1, 2] : List Int) [1, 3] [1, 3, 0]
    (by decide) (by decide) (by decide)
    (fun x y z h1 h2 => (cmp_int_neg_iff x z).mpr
      (lt_trans ((cmp_int_neg_iff x y).mp h1) ((cmp_int_neg_iff y z).mp h2)))
    (fun x y z h1 h2 => (cmp_int_zero_iff x z).mpr
      (((cmp_int_zero_iff x y).mp h1).trans ((cmp_int_zero_iff y z).mp h2)))
    (fun x y z h1 h2 => (cmp_int_neg_iff x z).mpr
      (by rw [(cmp_int_zero_iff x y).mp h1]; exact (cmp_int_neg_iff y z).mp h2))
    (fun x y z h1 h2 => (cmp_int_neg_iff x z).mpr
      (by rw [← (cmp_int_zero_iff y z).mp h2]; exact (cmp_int_neg_iff x y).mp h1))
    (-1) (-1) rfl (by decide) rfl (by decide)



/-! ## Membership through the generic triad -/

theorem rounds_succ_continue {σ α : Type} (next : IterMethod σ α) (k : Nat)
    (it it1 : __iter σ α) (e : α)
    (h : pyiter.for_in_has_next next it = (Except.ok true, it1))
    (hn : pyiter.for_in_next it1 = some e) :
    pyiter.rounds next (k + 1) it =
      match pyiter.rounds next k it1 with
      | none => none
      | some (xs, it2) => some (e :: xs, it2) := by
  rw [pyiter.rounds]
  simp only [h, hn]

theorem rounds_succ_stop {σ α : Type} (next : IterMethod σ α) (k : Nat)
    (it it1 : __iter σ α) (r : Except PyExc Bool)
    (h : pyiter.for_in_has_next next it = (r, it1)) (hr : r ≠ Except.ok true) :
    pyiter.rounds next (k + 1) it = none := by
  rw [pyiter.rounds]
  cases r with
  | error ex => simp only [h]
  | ok b =>
    cases b with
    | false => simp only [h]
    | true => exact absurd rfl hr

theorem rounds_succ_unassigned {σ α : Type} (next : IterMethod σ α) (k : Nat)
    (it it1 : __iter σ α)
    (h : pyiter.for_in_has_next next it = (Except.ok true, it1))
    (hn : pyiter.for_in_next it1 = none) :
    pyiter.rounds next (k + 1) it = none := by
  rw [pyiter.rounds]
  simp only [h, hn]

theorem containsLoop_true_iff {σ α : Type} (eq : α → α → Bool) (next : IterMethod σ α)
    (t : α) :
    ∀ (fuel : Nat) (it : __iter σ α),
      (∃ it1, pyiter.containsLoop eq next t fuel it = some (Except.ok true, it1)) ↔
      ∃ k xs it1, k ≤ fuel ∧ pyiter.rounds next k it = some (xs, it1) ∧
        ∃ x ∈ xs, eq x t = true := by
  intro fuel
  induction fuel with
  | zero =>
    intro it
    constructor
    · rintro ⟨it1, h⟩
      rw [pyiter.containsLoop] at h
      cases h
    · rintro ⟨k, xs, it1, hk, hr, x, hx, _⟩
      have hk0 : k = 0 := by omega
      subst hk0
      rw [pyiter.rounds] at hr
      injection hr with hr
      injection hr with hxs _
      rw [← hxs] at hx
      cases hx
  | succ fuel ih =>
    intro it
    have hzero : ∀ (xs : List α) (it1 : __iter σ α),
        pyiter.rounds next 0 it = some (xs, it1) → ¬ ∃ x ∈ xs, eq x t = true := by
      intro xs it1 hr
      rw [pyiter.rounds] at hr
      injection hr with hr
      injection hr with hxs _
      rw [← hxs]
      rintro ⟨x, hx, _⟩
      cases hx
    rcases h : pyiter.for_in_has_next next it with ⟨r, it1⟩
    by_cases hr : r = Except.ok true
    · subst hr
      cases hn : pyiter.for_in_next it1 with
      | none =>
        constructor
        · rintro ⟨it2, hc⟩
          rw [pyiter.containsLoop] at hc
          simp only [h, hn] at hc
          cases hc
        · rintro ⟨k, xs, it2, _, hro, hex⟩
          cases k with
          | zero => exact absurd hex (hzero xs it2 hro)
          | succ k =>
            rw [rounds_succ_unassigned next k it it1 h hn] at hro
            cases hro
      | some e =>
        by_cases he : eq e t = true
        · constructor
          · intro _
            refine ⟨1, [e], it1, by omega, ?_, e, List.mem_singleton.mpr rfl, he⟩
            rw [rounds_succ_continue next 0 it it1 e h hn, pyiter.rounds]
          · intro _
            refine ⟨it1, ?_⟩
            rw [pyiter.containsLoop]
            simp only [h, hn, he, if_true]
        · have hstep : pyiter.containsLoop eq next t (fuel + 1) it =
              pyiter.containsLoop eq next t fuel it1 := by
            rw [pyiter.containsLoop]
            simp only [h, hn, he, Bool.false_eq_true, if_false]
          rw [hstep, ih it1]
          constructor
          · rintro ⟨k, xs, it2, hk, hro, x, hx, hxt⟩
            refine ⟨k + 1, e :: xs, it2, by omega, ?_, x, List.mem_cons_of_mem _ hx, hxt⟩
            rw [rounds_succ_continue next k it it1 e h hn, hro]
          · rintro ⟨k, xs, it2, hk, hro, x, hx, hxt⟩
            cases k with
            | zero => exact absurd ⟨x, hx, hxt⟩ (hzero xs it2 hro)
            | succ k =>
              rw [rounds_succ_continue next k it it1 e h hn] at hro
              cases hro2 : pyiter.rounds next k it1 with
              | none =>
                rw [hro2] at hro
                cases hro
              | some p =>
                obtain ⟨xs2, it3⟩ := p
                rw [hro2] at hro
                simp only [Option.some.injEq, Prod.mk.injEq] at hro
                obtain ⟨hxs, hit⟩ := hro
                subst hxs
                rcases List.mem_cons.mp hx with hxe | hx2
                · rw [hxe] at hxt
                  exact absurd hxt he
                · exact ⟨k, xs2, it3, by omega, hro2, x, hx2, hxt⟩
    · constructor
      · rintro ⟨it2, hc⟩
        rw [pyiter.containsLoop] at hc
        cases r with
        | error ex =>
          simp only [h] at hc
          cases hc
        | ok b =>
          cases b with
          | false =>
            simp only [h] at hc
            cases hc
          | true => exact absurd rfl hr
      · rintro ⟨k, xs, it2, _, hro, hex⟩
        cases k with
        | zero => exact absurd hex (hzero xs it2 hro)
        | succ k =>
          rw [rounds_succ_stop next k it it1 r h hr] at hro
          cases hro


theorem containsLoop_false_iff {σ α : Type} (eq : α → α → Bool) (next : IterMethod σ α)
    (t : α) :
    ∀ (fuel : Nat) (it : __iter σ α),
      (∃ it1, pyiter.containsLoop eq next t fuel it = some (Except.ok false, it1)) ↔
      ∃ k xs it1, k < fuel ∧ pyiter.rounds next k it = some (xs, it1) ∧
        (pyiter.for_in_has_next next it1).1 = Except.ok false ∧
        ∀ x ∈ xs, eq x t = false := by
  intro fuel
  induction fuel with
  | zero =>
    intro it
    constructor
    · rintro ⟨it1, h⟩
      rw [pyiter.containsLoop] at h
      cases h
    · rintro ⟨k, _, _, hk, _⟩
      omega
  | succ fuel ih =>
    intro it
    have hzero : ∀ (xs : List α) (it1 : __iter σ α),
        pyiter.rounds next 0 it = some (xs, it1) → xs = [] ∧ it1 = it := by
      intro xs it1 hr
      rw [pyiter.rounds] at hr
      simp only [Option.some.injEq, Prod.mk.injEq] at hr
      exact ⟨hr.1.symm, hr.2.symm⟩
    rcases h : pyiter.for_in_has_next next it with ⟨r, it1⟩
    cases r with
    | error ex =>
      constructor
      · rintro ⟨it2, hc⟩
        rw [pyiter.containsLoop] at hc
        simp only [h] at hc
        cases hc
      · rintro ⟨k, xs, it2, _, hro, hend, _⟩
        cases k with
        | zero =>
          obtain ⟨_, hit⟩ := hzero xs it2 hro
          rw [hit, h] at hend
          cases hend
        | succ k =>
          rw [rounds_succ_stop next k it it1 _ h (by intro hc; cases hc)] at hro
          cases hro
    | ok b =>
      cases b with
      | false =>
        constructor
        · intro _
          refine ⟨0, [], it, by omega, by rw [pyiter.rounds], by rw [h], ?_⟩
          intro x hx
          cases hx
        · intro _
          refine ⟨it1, ?_⟩
          rw [pyiter.containsLoop]
          simp only [h]
      | true =>
        cases hn : pyiter.for_in_next it1 with
        | none =>
          constructor
          · rintro ⟨it2, hc⟩
            rw [pyiter.containsLoop] at hc
            simp only [h, hn] at hc
            cases hc
          · rintro ⟨k, xs, it2, _, hro, hend, _⟩
            cases k with
            | zero =>
              obtain ⟨_, hit⟩ := hzero xs it2 hro
              rw [hit, h] at hend
              cases hend
            | succ k =>
              rw [rounds_succ_unassigned next k it it1 h hn] at hro
              cases hro
        | some e =>
          by_cases he : eq e t = true
          · constructor
            · rintro ⟨it2, hc⟩
              rw [pyiter.containsLoop] at hc
              simp only [h, hn, he, if_true, Option.some.injEq, Prod.mk.injEq] at hc
              cases hc.1
            · rintro ⟨k, xs, it2, _, hro, hend, hall⟩
              cases k with
              | zero =>
                obtain ⟨_, hit⟩ := hzero xs it2 hro
                rw [hit, h] at hend
                cases hend
              | succ k =>
                rw [rounds_succ_continue next k it it1 e h hn] at hro
                cases hro2 : pyiter.rounds next k it1 with
                | none =>
                  rw [hro2] at hro
                  cases hro
                | some p =>
                  obtain ⟨xs2, it3⟩ := p
                  rw [hro2] at hro
                  simp only [Option.some.injEq, Prod.mk.injEq] at hro
                  obtain ⟨hxs, _⟩ := hro
                  have := hall e (by rw [← hxs]; exact List.mem_cons_self _ _)
                  rw [he] at this
                  cases this
          · have hef : eq e t = false := by
              cases hv : eq e t with
              | false => rfl
              | true => exact absurd hv he
            have hstep : pyiter.containsLoop eq next t (fuel + 1) it =
                pyiter.containsLoop eq next t fuel it1 := by
              rw [pyiter.containsLoop]
              simp only [h, hn, he, Bool.false_eq_true, if_false]
            rw [hstep, ih it1]
            constructor
            · rintro ⟨k, xs, it2, hk, hro, hend, hall⟩
              refine ⟨k + 1, e :: xs, it2, by omega, ?_, hend, ?_⟩
              · rw [rounds_succ_continue next k it it1 e h hn, hro]
              · intro x hx
                rcases List.mem_cons.mp hx with hxe | hx2
                · rw [hxe]; exact hef
                · exact hall x hx2
            · rintro ⟨k, xs, it2, hk, hro, hend, hall⟩
              cases k with
              | zero =>
                obtain ⟨_, hit⟩ := hzero xs it2 hro
                rw [hit, h] at hend
                cases hend
              | succ k =>
                rw [rounds_succ_continue next k it it1 e h hn] at hro
                cases hro2 : pyiter.rounds next k it1 with
                | none =>
                  rw [hro2] at hro
                  cases hro
                | some p =>
                  obtain ⟨xs2, it3⟩ := p
                  rw [hro2] at hro
                  simp only [Option.some.injEq, Prod.mk.injEq] at hro
                  obtain ⟨hxs, hit⟩ := hro
                  subst hxs
                  subst hit
                  exact ⟨k, xs2, it3, by omega, hro2, hend,
                    fun x hx => hall x (List.mem_cons_of_mem _ hx)⟩

/-- C12: the default `pyiter::__contains__(t)` returns true if and only if one of the
elements the iteration produces is equal to `t` under `__eq`, and returns false if
and only if the iteration ends after producing only elements that are not equal to
`t`; in particular it returns false when the iteration produces no element. -/
theorem pyiter_contains_iff {σ α : Type} (eq : α → α → Bool) (next : IterMethod σ α)
    (it : __iter σ α) (t : α) :
    ((∃ fuel it1, pyiter.__contains__ eq next it t fuel = some (Except.ok true, it1)) ↔
      ∃ k xs it1, pyiter.rounds next k it = some (xs, it1) ∧ ∃ x ∈ xs, eq x t = true) ∧
    ((∃ fuel it1, pyiter.__contains__ eq next it t fuel = some (Except.ok false, it1)) ↔
      ∃ k xs it1, pyiter.rounds next k it = some (xs, it1) ∧
        (pyiter.for_in_has_next next it1).1 = Except.ok false ∧
        ∀ x ∈ xs, eq x t = false) ∧
    ((pyiter.for_in_has_next next it).1 = Except.ok false →
      ∀ fuel, ∃ it1, pyiter.__contains__ eq next it t (fuel + 1) = some (Except.ok false, it1)) := by
  refine ⟨?_, ?_, ?_⟩
  · constructor
    · rintro ⟨fuel, it1, h⟩
      obtain ⟨k, xs, it2, _, hr, hx⟩ :=
        (containsLoop_true_iff eq next t fuel it).mp ⟨it1, h⟩
      exact ⟨k, xs, it2, hr, hx⟩
    · rintro ⟨k, xs, it1, hr, hx⟩
      obtain ⟨it2, h⟩ :=
        (containsLoop_true_iff eq next t k it).mpr ⟨k, xs, it1, Nat.le_refl k, hr, hx⟩
      exact ⟨k, it2, h⟩
  · constructor
    · rintro ⟨fuel, it1, h⟩
      obtain ⟨k, xs, it2, _, hr, hend, hall⟩ :=
        (containsLoop_false_iff eq next t fuel it).mp ⟨it1, h⟩
      exact ⟨k, xs, it2, hr, hend, hall⟩
    · rintro ⟨k, xs, it1, hr, hend, hall⟩
      obtain ⟨it2, h⟩ := (containsLoop_false_iff eq next t (k + 1) it).mpr
        ⟨k, xs, it1, Nat.lt_succ_self k, hr, hend, hall⟩
      exact ⟨k + 1, it2, h⟩
  · intro hend fuel
    apply (containsLoop_false_iff eq next t (fuel + 1) it).mpr
    refine ⟨0, [], it, Nat.succ_pos fuel, by rw [pyiter.rounds], hend, ?_⟩
    intro x hx
    cases hx



/-! ## Position of an iterator -/

theorem get_next_fields {σ α : Type} (next : IterMethod σ α) (it : __iter σ α) :
    (__iter.__get_next next it).2.fields = (next it).2.fields := by
  rcases h : next it with ⟨r, it1⟩
  rw [__iter.__get_next]
  cases r with
  | ok v => simp only [h]
  | error ex => cases ex <;> simp only [h]

theorem has_next_fields {σ α : Type} (next : IterMethod σ α) (it : __iter σ α) :
    (pyiter.for_in_has_next next it).2.fields = (next it).2.fields := by
  rw [← get_next_fields next it]
  rcases h : __iter.__get_next next it with ⟨r, it1⟩
  rw [pyiter.for_in_has_next]
  cases r with
  | ok v => simp only [h]
  | error ex => simp only [h]

/-- C15, as the code behaves: `it.__iter__()` returns `it` itself with the exhausted
flag cleared and every other field as it was, so the position is kept.  For a
`__seqiter` the call of `__next__` after it has the outcome it would have had without
it; this is the first element of the sequence when the counter is still `0`. -/
theorem iter_keeps_position {α : Type} (M : Nat) (s : List α) (it : __iter __seqiter α) :
    (__iter.__iter__ it).fields = it.fields ∧
    (__iter.__iter__ it).__result = it.__result ∧
    (__iter.__iter__ it).__stop_iteration = false ∧
    (__seqiter.__next__ M s (__iter.__iter__ it)).1 = (__seqiter.__next__ M s it).1 ∧
    (__seqiter.__next__ M s (__iter.__iter__ it)).2.fields =
      (__seqiter.__next__ M s it).2.fields ∧
    (∀ (x : α) (rest : List α), s = x :: rest → s.length < M →
      it.fields = { counter := 0, size := (s.length : Int) } →
      (__seqiter.__next__ M s (__iter.__iter__ it)).1 = Except.ok x) := by
  refine ⟨rfl, rfl, rfl, ?_, ?_, ?_⟩
  · simp only [__seqiter.__next__, __iter.__iter__]
    split <;> rfl
  · simp only [__seqiter.__next__, __iter.__iter__]
    split <;> rfl
  · intro x rest hs hl hf
    have hpos : 0 < s.length := by rw [hs]; exact Nat.succ_pos _
    have h := seqiter_next_before_end s (__iter.__iter__ it) 0 hl hpos
      (by simp only [__iter.__iter__, hf]; rfl) (by simp only [__iter.__iter__, hf])
    rw [h]
    subst hs
    rfl

/-- C15, counterexample: the iterator over the sequence `7, 8, 9` has produced `7`;
after `__iter__()` its next `__next__` returns `8`, not the first element `7`. -/
theorem iter_not_repositioned :
    (__seqiter.__next__ 2147483648 ([7, 8, 9] : List Nat)
      (pyseq.__iter__ 2147483648 ([7, 8, 9] : List Nat) false)).1 = Except.ok 7 ∧
    (__seqiter.__next__ 2147483648 ([7, 8, 9] : List Nat)
      (__iter.__iter__ (__seqiter.__next__ 2147483648 ([7, 8, 9] : List Nat)
        (pyseq.__iter__ 2147483648 ([7, 8, 9] : List Nat) false)).2)).1 = Except.ok 8 ∧
    (__seqiter.__next__ 2147483648 ([7, 8, 9] : List Nat)
      (__iter.__iter__ (__seqiter.__next__ 2147483648 ([7, 8, 9] : List Nat)
        (pyseq.__iter__ 2147483648 ([7, 8, 9] : List Nat) false)).2)).1 ≠ Except.ok 7 := by
  have h : (__seqiter.__next__ 2147483648 ([7, 8, 9] : List Nat)
      (__iter.__iter__ (__seqiter.__next__ 2147483648 ([7, 8, 9] : List Nat)
        (pyseq.__iter__ 2147483648 ([7, 8, 9] : List Nat) false)).2)).1 = Except.ok 8 := rfl
  refine ⟨rfl, h, ?_⟩
  rw [h]
  intro hc
  injection hc with hc
  exact absurd hc (by decide)

theorem seqiter_next_inv {α : Type} (M : Nat) (s : List α) (it : __iter __seqiter α)
    (hinv : SeqIterInv M it) :
    SeqIterInv M (__seqiter.__next__ M s it).2 ∧
    it.fields.counter ≤ (__seqiter.__next__ M s it).2.fields.counter ∧
    (∀ x, (__seqiter.__next__ M s it).1 = Except.ok x →
      (__seqiter.__next__ M s it).2.fields.counter = it.fields.counter + 1 ∧
      __getitem__ M s it.fields.counter = Except.ok x) := by
  obtain ⟨h0, h1, h2⟩ := hinv
  by_cases he : it.fields.counter = it.fields.size
  · rw [seqiter_next_at_end s it he]
    refine ⟨⟨h0, h1, h2⟩, le_refl _, ?_⟩
    intro x hx
    cases hx
  · have hw : ssIntWrap M (it.fields.counter + 1) = it.fields.counter + 1 := by
      apply ssIntWrap_of_isSsInt
      constructor <;> omega
    have hn : __seqiter.__next__ M s it =
        (__getitem__ M s it.fields.counter,
          { it with fields := { it.fields with counter := it.fields.counter + 1 } }) := by
      simp only [__seqiter.__next__, he, if_false, hw]
    rw [hn]
    refine ⟨⟨?_, ?_, h2⟩, ?_, ?_⟩
    · show 0 ≤ it.fields.counter + 1
      omega
    · show it.fields.counter + 1 ≤ it.fields.size
      omega
    · show it.fields.counter ≤ it.fields.counter + 1
      omega
    · intro x hx
      exact ⟨rfl, hx⟩

/-- C16: a `__seqiter` satisfies `0 <= counter <= size` after construction, and
`__next__`, `__get_next`, `__iter__` and the `pyiter` triad keep this and never
decrease `counter`, whatever the sequence holds at the time; each element `__next__`
produces is the one at the old `counter`, which the call increments, so the same
iterator never produces the element of one position twice. -/
theorem seqiter_single_pass {α : Type} (M : Nat) (s0 : List α) (flag0 : Bool)
    (hl : s0.length < M) :
    SeqIterInv M (pyseq.__iter__ M s0 flag0) ∧
    ∀ (it : __iter __seqiter α), SeqIterInv M it → ∀ (s : List α),
      (SeqIterInv M (__seqiter.__next__ M s it).2 ∧
        it.fields.counter ≤ (__seqiter.__next__ M s it).2.fields.counter) ∧
      (SeqIterInv M (__iter.__get_next (__seqiter.__next__ M s) it).2 ∧
        it.fields.counter ≤
          (__iter.__get_next (__seqiter.__next__ M s) it).2.fields.counter) ∧
      (SeqIterInv M (__iter.__iter__ it) ∧
        it.fields.counter ≤ (__iter.__iter__ it).fields.counter) ∧
      (SeqIterInv M (pyiter.for_in_init __iter.__iter__ it) ∧
        it.fields.counter ≤ (pyiter.for_in_init __iter.__iter__ it).fields.counter) ∧
      (SeqIterInv M (pyiter.for_in_has_next (__seqiter.__next__ M s) it).2 ∧
        it.fields.counter ≤
          (pyiter.for_in_has_next (__seqiter.__next__ M s) it).2.fields.counter) ∧
      (∀ x, (__seqiter.__next__ M s it).1 = Except.ok x →
        (__seqiter.__next__ M s it).2.fields.counter = it.fields.counter + 1 ∧
        __getitem__ M s it.fields.counter = Except.ok x) := by
  constructor
  · have hlen := len_eq_length s0 hl
    refine ⟨?_, ?_, ?_⟩
    · show (0 : Int) ≤ 0
      omega
    · show (0 : Int) ≤ len M s0
      omega
    · show len M s0 < (M : Int)
      omega
  · intro it hinv s
    obtain ⟨hn1, hn2, hn3⟩ := seqiter_next_inv M s it hinv
    have hg := get_next_fields (__seqiter.__next__ M s) it
    have hh := has_next_fields (__seqiter.__next__ M s) it
    refine ⟨⟨hn1, hn2⟩, ⟨?_, ?_⟩, ⟨hinv, le_refl _⟩, ⟨hinv, le_refl _⟩, ⟨?_, ?_⟩, hn3⟩
    · unfold SeqIterInv
      rw [hg]
      exact hn1
    · rw [hg]
      exact hn2
    · unfold SeqIterInv
      rw [hh]
      exact hn1
    · rw [hh]
      exact hn2

theorem seqiter_single_pass_witness :
    SeqIterInv 2147483648 (pyseq.__iter__ 2147483648 ([7, 8, 9] : List Nat) false) ∧
    ∀ (it : __iter __seqiter Nat), SeqIterInv 2147483648 it → ∀ (s : List Nat),
      (SeqIterInv 2147483648 (__seqiter.__next__ 2147483648 s it).2 ∧
        it.fields.counter ≤ (__seqiter.__next__ 2147483648 s it).2.fields.counter) ∧
      (SeqIterInv 2147483648 (__iter.__get_next (__seqiter.__next__ 2147483648 s) it).2 ∧
        it.fields.counter ≤
          (__iter.__get_next (__seqiter.__next__ 2147483648 s) it).2.fields.counter) ∧
      (SeqIterInv 2147483648 (__iter.__iter__ it) ∧
        it.fields.counter ≤ (__iter.__iter__ it).fields.counter) ∧
      (SeqIterInv 2147483648 (pyiter.for_in_init __iter.__iter__ it) ∧
        it.fields.counter ≤ (pyiter.for_in_init __iter.__iter__ it).fields.counter) ∧
      (SeqIterInv 2147483648 (pyiter.for_in_has_next (__seqiter.__next__ 2147483648 s) it).2 ∧
        it.fields.counter ≤
          (pyiter.for_in_has_next (__seqiter.__next__ 2147483648 s) it).2.fields.counter) ∧
      (∀ x, (__seqiter.__next__ 2147483648 s it).1 = Except.ok x →
        (__seqiter.__next__ 2147483648 s it).2.fields.counter = it.fields.counter + 1 ∧
        __getitem__ 2147483648 s it.fields.counter = Except.ok x) :=
  seqiter_single_pass 2147483648 ([7, 8, 9] : List Nat) false (by decide)



/-! ## Iteration over an unmodified dict -/

theorem dict_advance_at {K V : Type} [DecidableEq K] (e : K × V) (rest : dict K V) :
    ∀ (pre : dict K V), e.1 ∉ dict.keys pre →
      dict.advance (pre ++ e :: rest) e.1 = some (rest.head?.map Prod.fst) := by
  intro pre
  induction pre with
  | nil =>
    intro _
    simp only [List.nil_append, dict.advance, if_true]
  | cons p pre ih =>
    intro hk
    have hp : ¬ (p.1 = e.1) := by
      intro hc
      apply hk
      simp only [dict.keys, List.map_cons, List.mem_cons]
      exact Or.inl hc.symm
    have hk2 : e.1 ∉ dict.keys pre := by
      intro hc
      apply hk
      simp only [dict.keys, List.map_cons, List.mem_cons]
      exact Or.inr hc
    simp only [List.cons_append, dict.advance, hp, if_false]
    exact ih hk2

theorem dict_loop_from {K V : Type} [DecidableEq K] :
    ∀ (rest pre : dict K V) (fuel : Nat) (acc : List K),
      (dict.keys (pre ++ rest)).Nodup → rest.length < fuel →
      dict.for_in_loop (pre ++ rest) fuel { it := rest.head?.map Prod.fst } acc =
        some (Except.ok (acc ++ dict.keys rest, { it := none })) := by
  intro rest
  induction rest with
  | nil =>
    intro pre fuel acc _ hf
    cases fuel with
    | zero => omega
    | succ fuel =>
      rw [dict.for_in_loop]
      simp only [dict.for_in_has_next, List.head?_nil, Option.map_none', Option.isSome_none,
        dict.keys, List.map_nil, List.append_nil]
  | cons e rest ih =>
    intro pre fuel acc hnd hf
    cases fuel with
    | zero => omega
    | succ fuel =>
      have hk : e.1 ∉ dict.keys pre := by
        intro hc
        simp only [dict.keys, List.map_append, List.map_cons] at hnd hc
        rw [List.nodup_append] at hnd
        exact hnd.2.2 hc (List.mem_cons_self _ _)
      have hadv := dict_advance_at e rest pre hk
      have hassoc : pre ++ e :: rest = (pre ++ [e]) ++ rest := by
        simp only [List.append_assoc, List.singleton_append]
      have hrest := ih (pre ++ [e]) fuel (acc ++ [e.1]) (by rw [← hassoc]; exact hnd)
        (by simp only [List.length_cons] at hf; omega)
      rw [← hassoc] at hrest
      rw [dict.for_in_loop]
      simp only [dict.for_in_has_next, List.head?_cons, Option.map_some', Option.isSome_some,
        dict.for_in_next, hadv, hrest, dict.keys, List.map_cons, List.append_assoc,
        List.singleton_append]

/-- C17: on a dict with `n` entries that is not modified, the triad started at
`for_in_init()` yields exactly the `n` keys of the dict in table order, each key
once, and then `for_in_has_next` is false. -/
theorem dict_for_in_yields_keys {K V : Type} [DecidableEq K] (d : dict K V)
    (hnd : (dict.keys d).Nodup) (fuel : Nat) (hf : d.length < fuel) :
    dict.for_in_loop d fuel (dict.for_in_init d) [] =
      some (Except.ok (dict.keys d, { it := none })) ∧
    (dict.keys d).length = d.length ∧
    (∀ k ∈ dict.keys d, (dict.keys d).count k = 1) ∧
    dict.for_in_has_next d { it := none } = Except.ok false := by
  refine ⟨?_, ?_, ?_, rfl⟩
  · have h := dict_loop_from d [] fuel [] (by simpa using hnd) hf
    simpa [dict.for_in_init] using h
  · simp only [dict.keys, List.length_map]
  · intro k hk
    exact List.count_eq_one_of_mem hnd hk

theorem dict_for_in_yields_keys_witness :
    dict.for_in_loop ([(3, 30), (1, 10), (2, 20)] : dict Nat Nat) 4
      (dict.for_in_init ([(3, 30), (1, 10), (2, 20)] : dict Nat Nat)) [] =
      some (Except.ok (dict.keys ([(3, 30), (1, 10), (2, 20)] : dict Nat Nat), { it := none })) ∧
    (dict.keys ([(3, 30), (1, 10), (2, 20)] : dict Nat Nat)).length =
      ([(3, 30), (1, 10), (2, 20)] : dict Nat Nat).length ∧
    (∀ k ∈ dict.keys ([(3, 30), (1, 10), (2, 20)] : dict Nat Nat),
      (dict.keys ([(3, 30), (1, 10), (2, 20)] : dict Nat Nat)).count k = 1) ∧
    dict.for_in_has_next ([(3, 30), (1, 10), (2, 20)] : dict Nat Nat) { it := none } =
      Except.ok false :=
  dict_for_in_yields_keys ([(3, 30), (1, 10), (2, 20)] : dict Nat Nat) (by decide) 4
    (by decide)

/-! ## The `sys` module -/

/-- C18: `__sys__::__ss_exit()` never returns normally; it raises `SystemExit` with
the integer status `0`. -/
theorem ss_exit_raises_system_exit :
    (∀ r, __sys__.__ss_exit ≠ Except.ok r) ∧
    ∃ status : Int, __sys__.__ss_exit = Except.error (PyExc.SystemExit status) ∧
      status = 0 := by
  constructor
  · intro r h
    rw [__sys__.__ss_exit] at h
    cases h
  · exact ⟨0, rfl, rfl⟩

theorem argvLoop_eq {M : Nat} (v : List String) (hM : v.length < M) :
    ∀ (k i : Nat) (acc : List String), i + k = v.length →
      __sys__.argvLoop M v k (i : Int) acc = some (acc ++ v.drop i) := by
  intro k
  induction k with
  | zero =>
    intro i acc hi
    have hd : v.drop i = [] := List.drop_eq_nil_of_le (by omega)
    rw [__sys__.argvLoop, hd, List.append_nil]
  | succ k ih =>
    intro i acc hi
    have hlt : i < v.length := by omega
    have hw : ssIntWrap M ((i : Int) + 1) = ((i + 1 : Nat) : Int) := by
      rw [ssIntWrap_of_isSsInt]
      · push_cast; rfl
      · constructor <;> omega
    rw [__sys__.argvLoop]
    simp only [Int.toNat_ofNat, List.getElem?_eq_getElem hlt, hw]
    rw [ih (i + 1) _ (by omega), List.drop_eq_getElem_cons hlt]
    simp only [list.append, List.append_assoc, List.singleton_append]

/-- C19: for an argument vector `v` of `c >= 0` strings, `__init(c, v)` returns and
leaves in `argv` exactly `c` entries, `argv[i]` being `v[i]` for every `i < c`, in the
original order; `argv` is empty when `c = 0`. -/
theorem sys_init_argv (M : Nat) (gcc : String) (c : Int) (v : List String)
    (hc : c = (v.length : Int)) (hM : v.length < M) :
    ∃ g, __sys__.__init M gcc c v = some g ∧ g.argv = v ∧ (g.argv.length : Int) = c ∧
      (∀ (i : Nat), (i : Int) < c → g.argv[i]? = v[i]? ∧ ∃ s, g.argv[i]? = some s) ∧
      (c = 0 → g.argv = []) := by
  have hloop : __sys__.argvLoop M v c.toNat 0 [] = some v := by
    have h := argvLoop_eq v hM v.length 0 [] (by omega)
    rw [hc, Int.toNat_ofNat]
    simpa using h
  rw [__sys__.__init]
  simp only [hloop]
  refine ⟨_, rfl, rfl, ?_, ?_, ?_⟩
  · simp only [hc]
  · intro i hi
    have hlt : i < v.length := by omega
    exact ⟨rfl, v[i], List.getElem?_eq_getElem hlt⟩
  · intro h0
    have : v.length = 0 := by omega
    exact List.length_eq_zero.mp this

theorem sys_init_argv_witness :
    ∃ g, __sys__.__init 2147483648 "13.2" 3 ["prog", "-v", "x"] = some g ∧
      g.argv = ["prog", "-v", "x"] ∧ (g.argv.length : Int) = 3 ∧
      (∀ (i : Nat), (i : Int) < 3 →
        g.argv[i]? = (["prog", "-v", "x"] : List String)[i]? ∧ ∃ s, g.argv[i]? = some s) ∧
      ((3 : Int) = 0 → g.argv = []) :=
  sys_init_argv 2147483648 "13.2" 3 ["prog", "-v", "x"] (by decide) (by decide)



/-! ## `bytes` from an iterable -/

theorem bytesLoop_of_collect {ι : Type} (tr : ForInTriad ι Int) :
    ∀ (fuel : Nat) (c cEnd : ι) (acc res : List Int) (b : bytes),
      forInCollect tr fuel c acc = some (Except.ok res, cEnd) →
      ∃ new, res = acc ++ new ∧
        bytesLoop tr fuel c b =
          some (Except.ok { b with unit := b.unit ++ new.map toChar }, cEnd) := by
  intro fuel
  induction fuel with
  | zero =>
    intro c cEnd acc res b h
    rw [forInCollect] at h
    cases h
  | succ fuel ih =>
    intro c cEnd acc res b h
    rw [forInCollect] at h
    rw [bytesLoop]
    rcases hh : tr.has_next c with ⟨r, c1⟩
    rw [hh] at h
    cases r with
    | error ex =>
      simp only [Option.some.injEq, Prod.mk.injEq] at h
      cases h.1
    | ok bl =>
      cases bl with
      | false =>
        simp only [Option.some.injEq, Prod.mk.injEq, Except.ok.injEq] at h
        obtain ⟨hres, hc⟩ := h
        refine ⟨[], by rw [← hres, List.append_nil], ?_⟩
        simp only [List.map_nil, List.append_nil, hc]
      | true =>
        simp only at h ⊢
        cases hn : tr.next c1 with
        | none =>
          rw [hn] at h
          cases h
        | some p =>
          obtain ⟨r2, c2⟩ := p
          rw [hn] at h
          cases r2 with
          | error ex =>
            simp only [Option.some.injEq, Prod.mk.injEq] at h
            cases h.1
          | ok e =>
            simp only at h ⊢
            obtain ⟨new, hres, hb⟩ := ih c2 cEnd (acc ++ [e]) res
              { b with unit := b.unit ++ [toChar e] } h
            refine ⟨e :: new, by rw [hres, List.append_assoc, List.singleton_append], ?_⟩
            rw [hb]
            simp only [List.append_assoc, List.singleton_append, List.map_cons]

theorem toChar_spec (e : Int) :
    ((toChar e : Nat) : Int) = e % 256 ∧ toChar e < 256 ∧
      (0 ≤ e → e < 256 → ((toChar e : Nat) : Int) = e) := by
  have h1 : 0 ≤ e % 256 := Int.emod_nonneg e (by decide)
  have h2 : e % 256 < 256 := Int.emod_lt_of_pos e (by decide)
  have h3 : ((toChar e : Nat) : Int) = e % 256 := by
    rw [toChar]
    exact Int.toNat_of_nonneg h1
  refine ⟨h3, by omega, ?_⟩
  intro h0 h256
  rw [h3]
  exact Int.emod_eq_of_lt h0 h256

/-- C20: when iterating the iterable produces the integers `es`, through the triad of
its class for `__bytes` and through the `pyiter` triad for `__bytearray`, both return
a byte sequence of the same length whose `i`-th byte, read unsigned, is `es[i] mod 256`
(below `256`, and `es[i]` itself when that lies in `0..255`), in iteration order; the
contents are identical, `__bytes` leaves `frozen == 1` and `__bytearray` sets
`frozen == 0`. -/
theorem bytes_from_iterable {ι σ : Type} (tr : ForInTriad ι Int) (c cEnd : ι)
    (next : IterMethod σ Int) (it itEnd : __iter σ Int) (fuel1 fuel2 : Nat) (es : List Int)
    (h1 : forInCollect tr fuel1 c [] = some (Except.ok es, cEnd))
    (h2 : forInCollect (pyiter.triad next) fuel2 it [] = some (Except.ok es, itEnd)) :
    __bytes tr c fuel1 = some (Except.ok { unit := es.map toChar, frozen := 1 }, cEnd) ∧
    __bytearray next it fuel2 =
      some (Except.ok { unit := es.map toChar, frozen := 0 }, itEnd) ∧
    (es.map toChar).length = es.length ∧
    (∀ (i : Nat) (e : Int), es[i]? = some e →
      ∃ b : Nat, (es.map toChar)[i]? = some b ∧ (b : Int) = e % 256 ∧ b < 256 ∧
        (0 ≤ e → e < 256 → (b : Int) = e)) := by
  refine ⟨?_, ?_, List.length_map _ _, ?_⟩
  · obtain ⟨new, hres, hb⟩ := bytesLoop_of_collect tr fuel1 c cEnd [] es (bytes.init 1) h1
    rw [List.nil_append] at hres
    rw [__bytes, hb, ← hres]
    simp only [bytes.init, List.nil_append]
  · obtain ⟨new, hres, hb⟩ := bytesLoop_of_collect (pyiter.triad next) fuel2 it itEnd [] es
      { bytes.init 1 with frozen := 0 } h2
    rw [List.nil_append] at hres
    rw [__bytearray, hb, ← hres]
    simp only [bytes.init, List.nil_append]
  · intro i e he
    obtain ⟨s1, s2, s3⟩ := toChar_spec e
    refine ⟨toChar e, ?_, s1, s2, s3⟩
    rw [List.getElem?_map, he]
    rfl

theorem bytes_from_iterable_witness :
    __bytes (pyseq.triad 2147483648 ([65, 300, -1] : List Int)) pyseq.for_in_init 4 =
      some (Except.ok { unit := ([65, 300, -1] : List Int).map toChar, frozen := 1 }, 3) ∧
    __bytearray (__seqiter.__next__ 2147483648 ([65, 300, -1] : List Int))
      (pyseq.__iter__ 2147483648 ([65, 300, -1] : List Int) false) 4 =
      some (Except.ok { unit := ([65, 300, -1] : List Int).map toChar, frozen := 0 },
        { fields := { counter := 3, size := 3 }, __result := some (-1),
          __stop_iteration := true }) ∧
    (([65, 300, -1] : List Int).map toChar).length = ([65, 300, -1] : List Int).length ∧
    (∀ (i : Nat) (e : Int), ([65, 300, -1] : List Int)[i]? = some e →
      ∃ b : Nat, (([65, 300, -1] : List Int).map toChar)[i]? = some b ∧
        (b : Int) = e % 256 ∧ b < 256 ∧ (0 ≤ e → e < 256 → (b : Int) = e)) :=
  bytes_from_iterable (pyseq.triad 2147483648 ([65, 300, -1] : List Int)) pyseq.for_in_init 3
    (__seqiter.__next__ 2147483648 ([65, 300, -1] : List Int))
    (pyseq.__iter__ 2147483648 ([65, 300, -1] : List Int) false)
    { fields := { counter := 3, size := 3 }, __result := some (-1), __stop_iteration := true }
    4 4 [65, 300, -1] rfl rfl



/-! ## Frame of the generic triad -/

theorem has_next_true_inv {σ α : Type} (next : IterMethod σ α) (it it1 : __iter σ α)
    (h : pyiter.for_in_has_next next it = (Except.ok true, it1)) :
    ∃ v, next it = (Except.ok v, (next it).2) ∧
      it1 = { (next it).2 with __result := some v } ∧
      (next it).2.__stop_iteration = false := by
  rcases hn : next it with ⟨r, i1⟩
  rw [pyiter.for_in_has_next, __iter.__get_next] at h
  cases r with
  | ok v =>
    simp only [hn, Prod.mk.injEq, Except.ok.injEq, Bool.not_eq_true'] at h
    exact ⟨v, rfl, h.2.symm, h.1⟩
  | error ex =>
    cases ex <;> simp [hn] at h

/-- C21: when `pyiter::for_in_has_next(it)` returns true, the following `for_in_next`
returns the element `__next__` produced during that call and leaves the iterator as
it is, so a second `for_in_next` returns the same element; the element was consumed
by `for_in_has_next`, whose iterator holds the fields `__next__` left.  When
`__next__` raises `StopIteration` without touching `__result`, `__get_next` returns
the value stored before and keeps it stored. -/
theorem for_in_next_returns_produced {σ α : Type} (next : IterMethod σ α)
    (it it1 : __iter σ α)
    (h : pyiter.for_in_has_next next it = (Except.ok true, it1)) :
    (∃ v, (next it).1 = Except.ok v ∧ pyiter.for_in_next it1 = some v ∧
      (pyiter.triad next).next it1 = some (Except.ok v, it1) ∧
      (∀ it2, (pyiter.triad next).next it1 = some (Except.ok v, it2) →
        (pyiter.triad next).next it2 = some (Except.ok v, it2))) ∧
    it1.fields = (next it).2.fields ∧
    (∀ (it3 : __iter σ α), (next it3).1 = Except.error PyExc.StopIteration →
      (next it3).2.__result = it3.__result →
      (__iter.__get_next next it3).1 = Except.ok it3.__result ∧
      (__iter.__get_next next it3).2.__result = it3.__result ∧
      (__iter.__get_next next it3).2.__stop_iteration = true) := by
  obtain ⟨v, hv, hit1, _⟩ := has_next_true_inv next it it1 h
  have hnext : pyiter.for_in_next it1 = some v := by
    rw [pyiter.for_in_next, hit1]
  have htr : (pyiter.triad next).next it1 = some (Except.ok v, it1) := by
    simp only [pyiter.triad, hnext, Option.map_some']
  refine ⟨⟨v, by rw [hv], hnext, htr, ?_⟩, by rw [hit1], ?_⟩
  · intro it2 h2
    rw [htr] at h2
    simp only [Option.some.injEq, Prod.mk.injEq, true_and] at h2
    rw [← h2]
    exact htr
  · intro it3 hstop hres
    have hn : next it3 = (Except.error PyExc.StopIteration, (next it3).2) := by
      rw [← hstop]
    have hg : __iter.__get_next next it3 =
        (Except.ok (next it3).2.__result, { (next it3).2 with __stop_iteration := true }) := by
      rw [__iter.__get_next, hn]
    rw [hg]
    exact ⟨by rw [hres], hres, rfl⟩

theorem for_in_next_returns_produced_witness :
    (∃ v, (__seqiter.__next__ 2147483648 ([4, 5] : List Nat)
        (pyseq.__iter__ 2147483648 ([4, 5] : List Nat) false)).1 = Except.ok v ∧
      pyiter.for_in_next
        (⟨⟨1, 2⟩, some 4, false⟩ : __iter __seqiter Nat) = some v ∧
      (pyiter.triad (__seqiter.__next__ 2147483648 ([4, 5] : List Nat))).next
        ⟨⟨1, 2⟩, some 4, false⟩ =
        some (Except.ok v, ⟨⟨1, 2⟩, some 4, false⟩) ∧
      (∀ it2, (pyiter.triad (__seqiter.__next__ 2147483648 ([4, 5] : List Nat))).next
          ⟨⟨1, 2⟩, some 4, false⟩ = some (Except.ok v, it2) →
        (pyiter.triad (__seqiter.__next__ 2147483648 ([4, 5] : List Nat))).next it2 =
          some (Except.ok v, it2))) ∧
    (⟨⟨1, 2⟩, some 4, false⟩ : __iter __seqiter Nat).fields =
      (__seqiter.__next__ 2147483648 ([4, 5] : List Nat)
        (pyseq.__iter__ 2147483648 ([4, 5] : List Nat) false)).2.fields ∧
    (∀ (it3 : __iter __seqiter Nat),
      (__seqiter.__next__ 2147483648 ([4, 5] : List Nat) it3).1 =
        Except.error PyExc.StopIteration →
      (__seqiter.__next__ 2147483648 ([4, 5] : List Nat) it3).2.__result = it3.__result →
      (__iter.__get_next (__seqiter.__next__ 2147483648 ([4, 5] : List Nat)) it3).1 =
        Except.ok it3.__result ∧
      (__iter.__get_next (__seqiter.__next__ 2147483648 ([4, 5] : List Nat)) it3).2.__result =
        it3.__result ∧
      (__iter.__get_next (__seqiter.__next__ 2147483648 ([4, 5] : List Nat))
        it3).2.__stop_iteration = true) :=
  for_in_next_returns_produced (__seqiter.__next__ 2147483648 ([4, 5] : List Nat))
    (pyseq.__iter__ 2147483648 ([4, 5] : List Nat) false)
    ⟨⟨1, 2⟩, some 4, false⟩
    rfl

/-! ## The inherited `__next__` -/

/-- C24: for a class whose own `__get_next` returns without raising, the inherited
`__next__` raises `StopIteration` if and only if the exhausted flag is set after the
call, returns the value `__get_next` returned when the flag is clear, and leaves the
flag as `__get_next` left it. -/
theorem inherited_next_consistent {σ α : Type} (getNext : IterMethod σ α) (it : __iter σ α)
    (v : α) (hret : (getNext it).1 = Except.ok v) :
    ((__iter.__next__ getNext it).1 = Except.error PyExc.StopIteration ↔
      (__iter.__next__ getNext it).2.__stop_iteration = true) ∧
    ((__iter.__next__ getNext it).2.__stop_iteration = false →
      (__iter.__next__ getNext it).1 = Except.ok v ∧
      (__iter.__next__ getNext it).2.__result = some v) ∧
    (__iter.__next__ getNext it).2.__stop_iteration = (getNext it).2.__stop_iteration ∧
    (__iter.__next__ getNext it).2.fields = (getNext it).2.fields := by
  have hg : getNext it = (Except.ok v, (getNext it).2) := by
    rw [← hret]
  cases hf : (getNext it).2.__stop_iteration with
  | true =>
    have hn : __iter.__next__ getNext it =
        (Except.error PyExc.StopIteration, { (getNext it).2 with __result := some v }) := by
      rw [__iter.__next__]
      simp only
      rw [hg]
      simp only [hf, if_true]
    rw [hn]
    refine ⟨⟨fun _ => hf, fun _ => rfl⟩, ?_, hf, rfl⟩
    intro hc
    have hc2 : (getNext it).2.__stop_iteration = false := hc
    rw [hf] at hc2
    cases hc2
  | false =>
    have hn : __iter.__next__ getNext it =
        (Except.ok v, { (getNext it).2 with __result := some v }) := by
      rw [__iter.__next__]
      simp only
      rw [hg]
      simp only [hf, Bool.false_eq_true, if_false]
    rw [hn]
    refine ⟨⟨?_, ?_⟩, fun _ => ⟨rfl, rfl⟩, hf, rfl⟩
    · intro hc
      cases hc
    · intro hc
      have hc2 : (getNext it).2.__stop_iteration = true := hc
      rw [hf] at hc2
      cases hc2

theorem inherited_next_consistent_witness :
    ((__iter.__next__
        ((fun (it : __iter Nat Nat) =>
          if it.fields = 0 then (Except.ok 0, { it with __stop_iteration := true })
          else (Except.ok it.fields, { it with fields := it.fields - 1 })) :
          IterMethod Nat Nat)
        ⟨0, some 1, false⟩).1 = Except.error PyExc.StopIteration ↔
      (__iter.__next__
        ((fun (it : __iter Nat Nat) =>
          if it.fields = 0 then (Except.ok 0, { it with __stop_iteration := true })
          else (Except.ok it.fields, { it with fields := it.fields - 1 })) :
          IterMethod Nat Nat)
        ⟨0, some 1, false⟩).2.__stop_iteration = true) ∧
    ((__iter.__next__
        ((fun (it : __iter Nat Nat) =>
          if it.fields = 0 then (Except.ok 0, { it with __stop_iteration := true })
          else (Except.ok it.fields, { it with fields := it.fields - 1 })) :
          IterMethod Nat Nat)
        ⟨0, some 1, false⟩).2.__stop_iteration = false →
      (__iter.__next__
        ((fun (it : __iter Nat Nat) =>
          if it.fields = 0 then (Except.ok 0, { it with __stop_iteration := true })
          else (Except.ok it.fields, { it with fields := it.fields - 1 })) :
          IterMethod Nat Nat)
        ⟨0, some 1, false⟩).1 = Except.ok 0 ∧
      (__iter.__next__
        ((fun (it : __iter Nat Nat) =>
          if it.fields = 0 then (Except.ok 0, { it with __stop_iteration := true })
          else (Except.ok it.fields, { it with fields := it.fields - 1 })) :
          IterMethod Nat Nat)
        ⟨0, some 1, false⟩).2.__result = some 0) ∧
    (__iter.__next__
        ((fun (it : __iter Nat Nat) =>
          if it.fields = 0 then (Except.ok 0, { it with __stop_iteration := true })
          else (Except.ok it.fields, { it with fields := it.fields - 1 })) :
          IterMethod Nat Nat)
        ⟨0, some 1, false⟩).2.__stop_iteration =
      (((fun (it : __iter Nat Nat) =>
          if it.fields = 0 then (Except.ok 0, { it with __stop_iteration := true })
          else (Except.ok it.fields, { it with fields := it.fields - 1 })) :
          IterMethod Nat Nat)
        ⟨0, some 1, false⟩).2.__stop_iteration ∧
    (__iter.__next__
        ((fun (it : __iter Nat Nat) =>
          if it.fields = 0 then (Except.ok 0, { it with __stop_iteration := true })
          else (Except.ok it.fields, { it with fields := it.fields - 1 })) :
          IterMethod Nat Nat)
        ⟨0, some 1, false⟩).2.fields =
      (((fun (it : __iter Nat Nat) =>
          if it.fields = 0 then (Except.ok 0, { it with __stop_iteration := true })
          else (Except.ok it.fields, { it with fields := it.fields - 1 })) :
          IterMethod Nat Nat)
        ⟨0, some 1, false⟩).2.fields :=
  inherited_next_consistent
    ((fun (it : __iter Nat Nat) =>
      if it.fields = 0 then (Except.ok 0, { it with __stop_iteration := true })
      else (Except.ok it.fields, { it with fields := it.fields - 1 })) :
      IterMethod Nat Nat)
    ⟨0, some 1, false⟩ 0 rfl



/-! ## Agreement of the two iteration mechanisms -/

theorem seqiter_has_next_before_end {α : Type} {M : Nat} (s : List α)
    (it : __iter __seqiter α) (c : Nat) (hl : s.length < M) (hc : c < s.length)
    (hcnt : it.fields.counter = (c : Int)) (hsize : it.fields.size = (s.length : Int))
    (hflag : it.__stop_iteration = false) :
    pyiter.for_in_has_next (__seqiter.__next__ M s) it =
      (Except.ok true,
        { fields := { it.fields with counter := ((c + 1 : Nat) : Int) },
          __result := some (s.get ⟨c, hc⟩), __stop_iteration := false }) := by
  rw [pyiter.for_in_has_next, __iter.__get_next,
    seqiter_next_before_end s it c hl hc hcnt hsize]
  simp only [hflag, Bool.not_false]

theorem seqiter_has_next_at_end {α : Type} {M : Nat} (s : List α)
    (it : __iter __seqiter α) (h : it.fields.counter = it.fields.size) :
    pyiter.for_in_has_next (__seqiter.__next__ M s) it =
      (Except.ok false, { it with __stop_iteration := true }) := by
  rw [pyiter.for_in_has_next, __iter.__get_next, seqiter_next_at_end s it h]
  rfl

theorem seqiter_collect_from {α : Type} {M : Nat} (s : List α) (hl : s.length < M) :
    ∀ (k fuel c : Nat) (it : __iter __seqiter α) (acc : List α), c + k = s.length →
      it.fields.counter = (c : Int) → it.fields.size = (s.length : Int) →
      it.__stop_iteration = false → k < fuel →
      ∃ itEnd, forInCollect (pyiter.triad (__seqiter.__next__ M s)) fuel it acc =
        some (Except.ok (acc ++ s.drop c), itEnd) := by
  intro k
  induction k with
  | zero =>
    intro fuel c it acc hck hcnt hsize _ hf
    cases fuel with
    | zero => omega
    | succ fuel =>
      have hc : c = s.length := by omega
      have hend : it.fields.counter = it.fields.size := by rw [hcnt, hsize, hc]
      have hhas : (pyiter.triad (__seqiter.__next__ M s)).has_next it =
          (Except.ok false, { it with __stop_iteration := true }) :=
        seqiter_has_next_at_end s it hend
      refine ⟨{ it with __stop_iteration := true }, ?_⟩
      rw [forInCollect]
      simp only [hhas, hc, List.drop_length, List.append_nil]
  | succ k ih =>
    intro fuel c it acc hck hcnt hsize hflag hf
    cases fuel with
    | zero => omega
    | succ fuel =>
      have hc : c < s.length := by omega
      obtain ⟨itEnd, hrest⟩ := ih fuel (c + 1)
        { fields := { it.fields with counter := ((c + 1 : Nat) : Int) },
          __result := some (s.get ⟨c, hc⟩), __stop_iteration := false }
        (acc ++ [s.get ⟨c, hc⟩]) (by omega) rfl hsize rfl (by omega)
      have hhas : (pyiter.triad (__seqiter.__next__ M s)).has_next it =
          (Except.ok true,
            { fields := { it.fields with counter := ((c + 1 : Nat) : Int) },
              __result := some (s.get ⟨c, hc⟩), __stop_iteration := false }) :=
        seqiter_has_next_before_end s it c hl hc hcnt hsize hflag
      have hnxt : (pyiter.triad (__seqiter.__next__ M s)).next
          { fields := { it.fields with counter := ((c + 1 : Nat) : Int) },
            __result := some (s.get ⟨c, hc⟩), __stop_iteration := false } =
          some (Except.ok (s.get ⟨c, hc⟩),
            { fields := { it.fields with counter := ((c + 1 : Nat) : Int) },
              __result := some (s.get ⟨c, hc⟩), __stop_iteration := false }) := rfl
      refine ⟨itEnd, ?_⟩
      rw [forInCollect]
      simp only [hhas, hnxt]
      rw [hrest, List.drop_eq_getElem_cons hc]
      simp only [List.get_eq_getElem, List.append_assoc, List.singleton_append]

theorem pyseq_collect_from {α : Type} {M : Nat} (s : List α)
    (hl : s.length < M) (h64 : s.length < 18446744073709551616) :
    ∀ (fuel c : Nat) (acc : List α), c ≤ s.length → s.length - c < fuel →
      forInCollect (pyseq.triad M s) fuel c acc =
        some (Except.ok (acc ++ s.drop c), s.length) := by
  intro fuel
  induction fuel with
  | zero => intro c acc _ h; omega
  | succ fuel ih =>
    intro c acc hc hf
    by_cases hlt : c < s.length
    · have h1 : pyseq.for_in_has_next M s c = true :=
        (pyseq_has_next_iff s c hl (by omega)).mpr hlt
      have hhas : (pyseq.triad M s).has_next c = (Except.ok true, c) := by
        simp only [pyseq.triad, h1]
      have hnxt : (pyseq.triad M s).next c = some (Except.ok (s.get ⟨c, hlt⟩), c + 1) := by
        simp only [pyseq.triad, pyseq_next_eq s c hl h64 hlt]
      rw [forInCollect]
      simp only [hhas, hnxt]
      rw [ih (c + 1) _ (by omega) (by omega), List.drop_eq_getElem_cons hlt]
      simp only [List.get_eq_getElem, List.append_assoc, List.singleton_append]
    · have h1 : pyseq.for_in_has_next M s c = false := by
        rw [Bool.eq_false_iff]
        intro h
        exact hlt ((pyseq_has_next_iff s c hl (by omega)).mp h)
      have hc2 : c = s.length := by omega
      have hhas : (pyseq.triad M s).has_next c = (Except.ok false, c) := by
        simp only [pyseq.triad, h1]
      rw [forInCollect]
      simp only [hhas]
      rw [hc2, List.drop_length, List.append_nil]

/-- C22: on a sequence `s` that is not modified, the loop over the index-cursor triad
and the loop over the generic triad driven over a fresh `__seqiter` on `s` produce the
same list of elements, `s` itself.  The fresh iterator is taken with its exhausted
flag clear, either as allocated (the collector hands out cleared storage) or after
`for_in_init()`, whose `__iter__()` clears the flag. -/
theorem triads_agree_on_sequence {α : Type} (M : Nat) (s : List α) (flag0 : Bool)
    (fuel : Nat) (hl : s.length < M) (h64 : s.length < 18446744073709551616)
    (hf : s.length < fuel) :
    ∃ xs ys zs c itEnd1 itEnd2,
      pyseq.for_in_loop M s fuel pyseq.for_in_init [] = some (Except.ok (xs, c)) ∧
      forInCollect (pyseq.triad M s) fuel pyseq.for_in_init [] = some (Except.ok xs, c) ∧
      forInCollect (pyiter.triad (__seqiter.__next__ M s)) fuel
        (pyseq.__iter__ M s false) [] = some (Except.ok ys, itEnd1) ∧
      forInCollect (pyiter.triad (__seqiter.__next__ M s)) fuel
        (pyiter.for_in_init __iter.__iter__ (pyseq.__iter__ M s flag0)) [] =
        some (Except.ok zs, itEnd2) ∧
      xs = ys ∧ xs = zs ∧ xs = s := by
  have hsz : ∀ b, (pyseq.__iter__ M s b).fields.size = (s.length : Int) := by
    intro b
    simp only [pyseq.__iter__, __seqiter.init, len_eq_length s hl]
  obtain ⟨e1, h1⟩ := seqiter_collect_from s hl s.length fuel 0 (pyseq.__iter__ M s false) []
    (by omega) rfl (hsz false) rfl hf
  obtain ⟨e2, h2⟩ := seqiter_collect_from s hl s.length fuel 0
    (pyiter.for_in_init __iter.__iter__ (pyseq.__iter__ M s flag0)) []
    (by omega) rfl (hsz flag0) rfl hf
  have h3 := pyseq_loop_from s hl h64 fuel 0 [] (Nat.zero_le _) (by omega)
  have h4 := pyseq_collect_from s hl h64 fuel 0 [] (Nat.zero_le _) (by omega)
  simp only [List.nil_append, List.drop_zero] at h1 h2 h3 h4
  exact ⟨s, s, s, s.length, e1, e2, h3, h4, h1, h2, rfl, rfl, rfl⟩

theorem triads_agree_on_sequence_witness :
    ∃ xs ys zs c itEnd1 itEnd2,
      pyseq.for_in_loop 2147483648 ([7, 8, 9] : List Nat) 4 pyseq.for_in_init [] =
        some (Except.ok (xs, c)) ∧
      forInCollect (pyseq.triad 2147483648 ([7, 8, 9] : List Nat)) 4 pyseq.for_in_init [] =
        some (Except.ok xs, c) ∧
      forInCollect (pyiter.triad (__seqiter.__next__ 2147483648 ([7, 8, 9] : List Nat))) 4
        (pyseq.__iter__ 2147483648 ([7, 8, 9] : List Nat) false) [] =
        some (Except.ok ys, itEnd1) ∧
      forInCollect (pyiter.triad (__seqiter.__next__ 2147483648 ([7, 8, 9] : List Nat))) 4
        (pyiter.for_in_init __iter.__iter__
          (pyseq.__iter__ 2147483648 ([7, 8, 9] : List Nat) true)) [] =
        some (Except.ok zs, itEnd2) ∧
      xs = ys ∧ xs = zs ∧ xs = [7, 8, 9] :=
  triads_agree_on_sequence 2147483648 ([7, 8, 9] : List Nat) true 4
    (by decide) (by decide) (by decide)



/-! ## A sequence that grows after the iterator was created -/

theorem seqiter_next_on_extended {α : Type} {M : Nat} (s ext : List α)
    (it : __iter __seqiter α) (c : Nat) (hl : (s ++ ext).length < M) (hc : c < s.length)
    (hcnt : it.fields.counter = (c : Int)) (hsize : it.fields.size = (s.length : Int)) :
    __seqiter.__next__ M (s ++ ext) it =
      (Except.ok (s.get ⟨c, hc⟩),
        { it with fields := { it.fields with counter := ((c + 1 : Nat) : Int) } }) := by
  have hne : ¬ ((c : Int) = (s.length : Int)) := by omega
  have hlen : (s ++ ext).length = s.length + ext.length := List.length_append s ext
  have hc2 : c < (s ++ ext).length := by omega
  have hw : ssIntWrap M ((c : Int) + 1) = ((c + 1 : Nat) : Int) := by
    rw [ssIntWrap_of_isSsInt]
    · push_cast; rfl
    · constructor <;> omega
  have hget : (s ++ ext).get ⟨c, hc2⟩ = s.get ⟨c, hc⟩ := by
    simp only [List.get_eq_getElem]
    exact List.getElem_append_left hc
  simp only [__seqiter.__next__, hcnt, hsize, hne, if_false,
    getitem_nat (s ++ ext) c hl hc2, hw, hget]

theorem seqiter_callsOn_at_end {α : Type} {M : Nat} :
    ∀ (seqs : List (List α)) (it : __iter __seqiter α), it.fields.counter = it.fields.size →
      __seqiter.nextCallsOn M seqs it =
        (List.replicate seqs.length (Except.error PyExc.StopIteration), it) := by
  intro seqs
  induction seqs with
  | nil => intro it _; rfl
  | cons t seqs ih =>
    intro it h
    rw [__seqiter.nextCallsOn]
    simp only [seqiter_next_at_end t it h, ih it h, List.length_cons, List.replicate_succ]

theorem seqiter_callsOn_from {α : Type} {M : Nat} (s : List α) (seqs2 : List (List α)) :
    ∀ (seqs1 : List (List α)) (c : Nat) (it : __iter __seqiter α),
      c + seqs1.length = s.length →
      (∀ t ∈ seqs1, (∃ ext, t = s ++ ext) ∧ t.length < M) →
      it.fields.counter = (c : Int) → it.fields.size = (s.length : Int) →
      (__seqiter.nextCallsOn M (seqs1 ++ seqs2) it).1 =
        (s.drop c).map Except.ok ++
          List.replicate seqs2.length (Except.error PyExc.StopIteration) := by
  intro seqs1
  induction seqs1 with
  | nil =>
    intro c it hck _ hcnt hsize
    have hc : c = s.length := by simpa using hck
    have hend : it.fields.counter = it.fields.size := by rw [hcnt, hsize, hc]
    rw [List.nil_append, seqiter_callsOn_at_end seqs2 it hend, hc, List.drop_length]
    rfl
  | cons t seqs1 ih =>
    intro c it hck hext hcnt hsize
    have hc : c < s.length := by
      simp only [List.length_cons] at hck
      omega
    obtain ⟨⟨ext, ht⟩, htl⟩ := hext t (List.mem_cons_self _ _)
    subst ht
    have hrest := ih (c + 1)
      { it with fields := { it.fields with counter := ((c + 1 : Nat) : Int) } }
      (by simp only [List.length_cons] at hck; omega)
      (fun u hu => hext u (List.mem_cons_of_mem _ hu)) rfl hsize
    rw [List.cons_append, __seqiter.nextCallsOn]
    simp only [seqiter_next_on_extended s ext it c htl hc hcnt hsize]
    rw [hrest, List.drop_eq_getElem_cons hc]
    simp only [List.get_eq_getElem, List.map_cons, List.cons_append]

/-- C23: a `__seqiter` created on a sequence with elements `s` keeps `size = len(s)`:
when the sequence has grown by appended elements at the time of its calls, the first
`len(s)` calls of `__next__` still return the elements of `s` in order and every later
call raises `StopIteration`, so no appended element is produced; the index-cursor
`for_in_has_next(len(s))` is false on `s` and true once an element has been
appended. -/
theorem seqiter_size_fixed_at_creation {α : Type} (M : Nat) (s : List α) (flag0 : Bool)
    (seqs1 seqs2 : List (List α)) (hl : s.length < M) (hlen : seqs1.length = s.length)
    (hext : ∀ t ∈ seqs1, (∃ ext, t = s ++ ext) ∧ t.length < M) :
    (pyseq.__iter__ M s flag0).fields.size = (s.length : Int) ∧
    (__seqiter.nextCallsOn M (seqs1 ++ seqs2) (pyseq.__iter__ M s flag0)).1 =
      s.map Except.ok ++ List.replicate seqs2.length (Except.error PyExc.StopIteration) ∧
    pyseq.for_in_has_next M s s.length = false ∧
    (∀ (x : α) (ext : List α), (s ++ x :: ext).length < M →
      pyseq.for_in_has_next M (s ++ x :: ext) s.length = true) := by
  have hsz : (pyseq.__iter__ M s flag0).fields.size = (s.length : Int) := by
    simp only [pyseq.__iter__, __seqiter.init, len_eq_length s hl]
  refine ⟨hsz, ?_, ?_, ?_⟩
  · have h := seqiter_callsOn_from s seqs2 seqs1 0 (pyseq.__iter__ M s flag0)
      (by omega) hext rfl hsz
    simpa using h
  · rw [Bool.eq_false_iff]
    intro h
    have := (pyseq_has_next_iff s s.length hl hl).mp h
    omega
  · intro x ext hx
    apply (pyseq_has_next_iff (s ++ x :: ext) s.length hx (by omega)).mpr
    simp only [List.length_append, List.length_cons]
    omega

theorem seqiter_size_fixed_at_creation_witness :
    (pyseq.__iter__ 2147483648 ([7, 8] : List Nat) false).fields.size =
      (([7, 8] : List Nat).length : Int) ∧
    (__seqiter.nextCallsOn 2147483648 ([[7, 8], [7, 8, 9]] ++ [[7, 8, 9], [7, 8, 9, 10]])
      (pyseq.__iter__ 2147483648 ([7, 8] : List Nat) false)).1 =
      ([7, 8] : List Nat).map Except.ok ++
        List.replicate ([[7, 8, 9], [7, 8, 9, 10]] : List (List Nat)).length
          (Except.error PyExc.StopIteration) ∧
    pyseq.for_in_has_next 2147483648 ([7, 8] : List Nat) ([7, 8] : List Nat).length = false ∧
    (∀ (x : Nat) (ext : List Nat), (([7, 8] : List Nat) ++ x :: ext).length < 2147483648 →
      pyseq.for_in_has_next 2147483648 (([7, 8] : List Nat) ++ x :: ext)
        ([7, 8] : List Nat).length = true) :=
  seqiter_size_fixed_at_creation 2147483648 ([7, 8] : List Nat) false
    [[7, 8], [7, 8, 9]] [[7, 8, 9], [7, 8, 9, 10]] (by decide) (by decide)
    (by
      intro t ht
      simp only [List.mem_cons, List.mem_singleton, List.not_mem_nil, or_false] at ht
      rcases ht with ht | ht
      · subst ht
        exact ⟨⟨[], rfl⟩, by decide⟩
      · subst ht
        exact ⟨⟨[9], rfl⟩, by decide⟩)

/-! ## Bounds of the reads of the sequence comparison -/

theorem cmpLoopLog_result {α : Type} (M : Nat) (cmpE : α → α → Int) (a b : List α) :
    ∀ (k : Nat) (i : Int) (log : CmpLog),
      (pyseq.cmpLoopLog M cmpE a b k i log).1 = pyseq.cmpLoop M cmpE a b k i := by
  intro k
  induction k with
  | zero =>
    intro i log
    rw [pyseq.cmpLoopLog, pyseq.cmpLoop]
  | succ k ih =>
    intro i log
    rw [pyseq.cmpLoopLog, pyseq.cmpLoop]
    cases __getitem__ M a i with
    | error e => rfl
    | ok x =>
      cases __getitem__ M b i with
      | error e => rfl
      | ok y =>
        simp only
        split
        · rfl
        · exact ih _ _

theorem cmpLoopLog_bounds {α : Type} {M : Nat} (cmpE : α → α → Int) (a b : List α)
    (ha : a.length < M) (hb : b.length < M) :
    ∀ (k i : Nat) (log : CmpLog), i + k = min a.length b.length →
      ∃ (new : List Int) (cnt : Nat),
        (pyseq.cmpLoopLog M cmpE a b k (i : Int) log).2.reads = log.reads ++ new ∧
        (pyseq.cmpLoopLog M cmpE a b k (i : Int) log).2.comparisons =
          log.comparisons + cnt ∧
        (∀ j ∈ new, (i : Int) ≤ j ∧ j < ((min a.length b.length : Nat) : Int)) ∧
        cnt ≤ k ∧ new.length = 2 * cnt := by
  intro k
  induction k with
  | zero =>
    intro i log _
    refine ⟨[], 0, ?_, ?_, ?_, Nat.le_refl 0, rfl⟩
    · rw [pyseq.cmpLoopLog, List.append_nil]
    · rw [pyseq.cmpLoopLog, Nat.add_zero]
    · intro j hj
      cases hj
  | succ k ih =>
    intro i log hi
    have hia : i < a.length := by omega
    have hib : i < b.length := by omega
    have hw : ssIntWrap M ((i : Int) + 1) = ((i + 1 : Nat) : Int) := by
      rw [ssIntWrap_of_isSsInt]
      · push_cast; rfl
      · constructor <;> omega
    have hmem : ∀ j ∈ [(i : Int), (i : Int)],
        (i : Int) ≤ j ∧ j < ((min a.length b.length : Nat) : Int) := by
      intro j hj
      simp only [List.mem_cons, List.mem_singleton, List.not_mem_nil, or_false, or_self] at hj
      subst hj
      omega
    by_cases hcmp : cmpE (a.get ⟨i, hia⟩) (b.get ⟨i, hib⟩) = 0
    · have hstep : pyseq.cmpLoopLog M cmpE a b (k + 1) (i : Int) log =
          pyseq.cmpLoopLog M cmpE a b k ((i + 1 : Nat) : Int)
            { reads := log.reads ++ [(i : Int)] ++ [(i : Int)],
              comparisons := log.comparisons + 1 } := by
        rw [pyseq.cmpLoopLog, getitem_nat a i ha hia, getitem_nat b i hb hib]
        simp only [hw, hcmp, ne_eq, not_true_eq_false, if_false]
      obtain ⟨new, cnt, h1, h2, h3, h4, h5⟩ := ih (i + 1)
        { reads := log.reads ++ [(i : Int)] ++ [(i : Int)],
          comparisons := log.comparisons + 1 } (by omega)
      have h2b : (pyseq.cmpLoopLog M cmpE a b k ((i + 1 : Nat) : Int)
          { reads := log.reads ++ [(i : Int)] ++ [(i : Int)],
            comparisons := log.comparisons + 1 }).2.comparisons =
          log.comparisons + 1 + cnt := h2
      rw [hstep]
      refine ⟨[(i : Int), (i : Int)] ++ new, cnt + 1, ?_, ?_, ?_, by omega, ?_⟩
      · rw [h1]
        simp only [List.append_assoc, List.singleton_append, List.cons_append,
          List.nil_append]
      · rw [h2b]
        omega
      · intro j hj
        rw [List.mem_append] at hj
        rcases hj with hj | hj
        · exact hmem j hj
        · have := h3 j hj
          constructor
          · have h6 := this.1
            push_cast at h6
            omega
          · exact this.2
      · simp only [List.length_append, List.length_cons, List.length_nil, h5]
        omega
    · have hstep : pyseq.cmpLoopLog M cmpE a b (k + 1) (i : Int) log =
          (Except.ok (cmpE (a.get ⟨i, hia⟩) (b.get ⟨i, hib⟩)),
            { reads := log.reads ++ [(i : Int)] ++ [(i : Int)],
              comparisons := log.comparisons + 1 }) := by
        rw [pyseq.cmpLoopLog, getitem_nat a i ha hia, getitem_nat b i hb hib]
        simp only [hcmp, ne_eq, not_false_eq_true, if_true]
      rw [hstep]
      refine ⟨[(i : Int), (i : Int)], 1, ?_, rfl, hmem, by omega, rfl⟩
      simp only [List.append_assoc, List.singleton_append]

/-- C25: for non-null sequences `a` and `b`, every index `pyseq::__cmp__` passes to
`__getitem__` lies in `[0, min(len(a), len(b)))`; it raises no error, returns a
value, and makes at most `min(len(a), len(b))` element comparisons, each with one read
of `a` and one of `b`. -/
theorem pyseq_cmp_reads_in_bounds {α : Type} (M : Nat) (cmpE : α → α → Int) (a b : List α)
    (ha : a.length < M) (hb : b.length < M) :
    (pyseq.cmpLog M cmpE a (some b)).1 = pyseq.__cmp__ M cmpE a (some b) ∧
    (∃ r, pyseq.__cmp__ M cmpE a (some b) = Except.ok r) ∧
    (∀ j ∈ (pyseq.cmpLog M cmpE a (some b)).2.reads,
      0 ≤ j ∧ j < ((min a.length b.length : Nat) : Int)) ∧
    (pyseq.cmpLog M cmpE a (some b)).2.comparisons ≤ min a.length b.length ∧
    (pyseq.cmpLog M cmpE a (some b)).2.reads.length =
      2 * (pyseq.cmpLog M cmpE a (some b)).2.comparisons := by
  have hmin : (___min (len M a) (len M b)).toNat = min a.length b.length := by
    rw [len_eq_length a ha, len_eq_length b hb, ___min]
    split <;> omega
  have hlog : pyseq.cmpLog M cmpE a (some b) =
      pyseq.cmpLoopLog M cmpE a b (min a.length b.length) ((0 : Nat) : Int)
        { reads := [], comparisons := 0 } := by
    rw [pyseq.cmpLog]
    simp only [hmin]
    rfl
  have hcmp : pyseq.__cmp__ M cmpE a (some b) =
      pyseq.cmpLoop M cmpE a b (min a.length b.length) ((0 : Nat) : Int) := by
    rw [pyseq.__cmp__]
    simp only [hmin]
    rfl
  obtain ⟨new, cnt, h1, h2, h3, h4, h5⟩ := cmpLoopLog_bounds cmpE a b ha hb
    (min a.length b.length) 0 { reads := [], comparisons := 0 } (by omega)
  refine ⟨?_, ⟨_, pyseq_cmp_eq_firstDiff cmpE a b ha hb⟩, ?_, ?_, ?_⟩
  · rw [hlog, hcmp]
    exact cmpLoopLog_result M cmpE a b _ _ _
  · rw [hlog, h1]
    intro j hj
    rw [List.nil_append] at hj
    have := h3 j hj
    constructor
    · have h6 := this.1
      push_cast at h6
      omega
    · exact this.2
  · have h2b : (pyseq.cmpLoopLog M cmpE a b (min a.length b.length) ((0 : Nat) : Int)
        { reads := [], comparisons := 0 }).2.comparisons = 0 + cnt := h2
    rw [hlog, h2b]
    omega
  · have h2b : (pyseq.cmpLoopLog M cmpE a b (min a.length b.length) ((0 : Nat) : Int)
        { reads := [], comparisons := 0 }).2.comparisons = 0 + cnt := h2
    rw [hlog, h1, h2b, List.nil_append, h5]
    omega

theorem pyseq_cmp_reads_in_bounds_witness :
    (pyseq.cmpLog 2147483648 __cmp ([1, 2, 3] : List Int) (some [1, 2, 5, 6])).1 =
      pyseq.__cmp__ 2147483648 __cmp ([1, 2, 3] : List Int) (some [1, 2, 5, 6]) ∧
    (∃ r, pyseq.__cmp__ 2147483648 __cmp ([1, 2, 3] : List Int) (some [1, 2, 5, 6]) =
      Except.ok r) ∧
    (∀ j ∈ (pyseq.cmpLog 2147483648 __cmp ([1, 2, 3] : List Int) (some [1, 2, 5, 6])).2.reads,
      0 ≤ j ∧ j < ((min ([1, 2, 3] : List Int).length
        ([1, 2, 5, 6] : List Int).length : Nat) : Int)) ∧
    (pyseq.cmpLog 2147483648 __cmp ([1, 2, 3] : List Int)
      (some [1, 2, 5, 6])).2.comparisons ≤
      min ([1, 2, 3] : List Int).length ([1, 2, 5, 6] : List Int).length ∧
    (pyseq.cmpLog 2147483648 __cmp ([1, 2, 3] : List Int) (some [1, 2, 5, 6])).2.reads.length =
      2 * (pyseq.cmpLog 2147483648 __cmp ([1, 2, 3] : List Int)
        (some [1, 2, 5, 6])).2.comparisons :=
  pyseq_cmp_reads_in_bounds 2147483648 __cmp ([1, 2, 3] : List Int) [1, 2, 5, 6]
    (by decide) (by decide)


end Shedskin
